import Mathlib

/-!
# git-metrics: the report tables of `pkg/display/display.go`

A shallow embedding of `PrintGrowthTableRow`, `PrintLargestFiles` and
`PrintTopFileExtensions`, and the properties of the figures they print.

Conventions of the embedding.

* Go `int` and `int64` are 64-bit two's-complement integers.  They are
  embedded as `Int`; every `+`, `-`, `+=` and `++` of the source is followed
  by `wrapInt`, which reduces the exact result into `[-2^63, 2^63)`.
* Go `float64` is embedded as `Float64`: a finite value is the rational it
  stands for, and the three special values of IEEE-754 are kept as they are.
  Every conversion, division and multiplication rounds its exact result to
  binary64 with `round64` (to nearest, ties to even, subnormals and overflow
  included); the sign of zero is not modelled.  The only floating-point
  expressions of the source are of the shape `float64(a) / float64(b) * 100`
  with `a`, `b` integers.
* A function that prints is embedded as a function that returns the values it
  hands to `fmt.Printf`, in a record.  The helpers `utils.FormatNumber`,
  `utils.FormatSize` and `utils.TruncatePath` live in another package; the
  records hold the integer that is passed to them.
-/

namespace Display

/-! ## Machine integers -/

/-- Reduction of an exact integer into the range of a 64-bit signed integer. -/
def wrapInt (x : Int) : Int :=
  (x + 9223372036854775808) % 18446744073709551616 - 9223372036854775808

/-- The value is representable as a 64-bit signed integer. -/
def fitsInt (x : Int) : Prop :=
  -9223372036854775808 ≤ x ∧ x < 9223372036854775808

instance (x : Int) : Decidable (fitsInt x) := by
  unfold fitsInt; exact inferInstance

/-! ## Floating point -/

/-- A binary64 value: finite (kept exact), or one of the special values. -/
inductive Float64 where
  | finite (q : ℚ)
  | posInf
  | negInf
  | nan
  deriving DecidableEq

/-- Rounding of a rational to the nearest integer, a tie going to the even
neighbour. -/
def roundHalfEven (x : ℚ) : Int :=
  if x - (⌊x⌋ : ℚ) < 1 / 2 then ⌊x⌋
  else if 1 / 2 < x - (⌊x⌋ : ℚ) then ⌊x⌋ + 1
  else if ⌊x⌋ % 2 = 0 then ⌊x⌋ else ⌊x⌋ + 1

/-- The exponent of the unit in the last place of the binary64 values of the
magnitude of `q`: 52 below the binary exponent of `q`, and -1074 at least. -/
def ulpExponent (q : ℚ) : Int := max (Int.log 2 |q| - 52) (-1074)

/-- Rounding of a rational to binary64, to nearest and ties to even, with
overflow to an infinity. -/
def round64 (q : ℚ) : Float64 :=
  if (2 : ℚ) ^ (1024 : Nat) ≤ (roundHalfEven (q / (2 : ℚ) ^ ulpExponent q) : ℚ) * (2 : ℚ) ^ ulpExponent q then
    Float64.posInf
  else if (roundHalfEven (q / (2 : ℚ) ^ ulpExponent q) : ℚ) * (2 : ℚ) ^ ulpExponent q ≤ -(2 : ℚ) ^ (1024 : Nat) then
    Float64.negInf
  else Float64.finite ((roundHalfEven (q / (2 : ℚ) ^ ulpExponent q) : ℚ) * (2 : ℚ) ^ ulpExponent q)

namespace Float64

/-- Conversion `float64(i)` of an integer: the nearest binary64 value. -/
def ofInt (i : Int) : Float64 := round64 (i : ℚ)

/-- Division `x / y` of IEEE-754 (a zero divisor is the positive zero). -/
def div : Float64 → Float64 → Float64
  | nan, _ => nan
  | _, nan => nan
  | finite a, finite b =>
      if b = 0 then (if a = 0 then nan else if 0 < a then posInf else negInf)
      else round64 (a / b)
  | finite _, posInf => finite 0
  | finite _, negInf => finite 0
  | posInf, finite b => if 0 ≤ b then posInf else negInf
  | negInf, finite b => if 0 ≤ b then negInf else posInf
  | posInf, posInf => nan
  | posInf, negInf => nan
  | negInf, posInf => nan
  | negInf, negInf => nan

/-- Multiplication `x * y` of IEEE-754. -/
def mul : Float64 → Float64 → Float64
  | nan, _ => nan
  | _, nan => nan
  | finite a, finite b => round64 (a * b)
  | finite a, posInf => if a = 0 then nan else if 0 < a then posInf else negInf
  | finite a, negInf => if a = 0 then nan else if 0 < a then negInf else posInf
  | posInf, finite b => if b = 0 then nan else if 0 < b then posInf else negInf
  | negInf, finite b => if b = 0 then nan else if 0 < b then negInf else posInf
  | posInf, posInf => posInf
  | posInf, negInf => negInf
  | negInf, posInf => negInf
  | negInf, negInf => posInf

/-- The rational value of a finite float, and `0` for a special value. -/
def toRat : Float64 → ℚ
  | finite q => q
  | _ => 0

/-- The value is finite. -/
def isFinite : Float64 → Bool
  | finite _ => true
  | _ => false

/-- The float is finite and within the relative error `2^-50` of `exact`. -/
def approximates : Float64 → ℚ → Prop
  | finite p, exact => |p - exact| ≤ |exact| / 2 ^ (50 : Nat)
  | _, _ => False

instance (x : Float64) (exact : ℚ) : Decidable (x.approximates exact) := by
  cases x <;> unfold approximates <;> exact inferInstance

end Float64

/-- The expression `float64(a) / float64(b) * 100` of the source. -/
def percentOf (a b : Int) : Float64 :=
  Float64.mul (Float64.div (Float64.ofInt a) (Float64.ofInt b)) (Float64.finite 100)

/-! ## Data model -/

/-- Modelled from the spec: `models.GrowthStatistics` (declared in the
package `models`); one record per year with cumulative counts. -/
structure GrowthStatistics where
  Year : Int
  Commits : Int
  Trees : Int
  Blobs : Int
  Compressed : Int
  deriving DecidableEq

/-- Modelled from the spec: `models.RepositoryInformation`, the all-time
totals of the repository. -/
structure RepositoryInformation where
  TotalCommits : Int
  TotalTrees : Int
  TotalBlobs : Int
  CompressedSize : Int
  deriving DecidableEq

/-- Modelled from the spec: `models.FileInformation`, one record per path.
The field `LastChange` is only printed and is left out. -/
structure FileInformation where
  Path : String
  Blobs : Int
  CompressedSize : Int
  deriving DecidableEq

/-- The zero value of `GrowthStatistics`. -/
def GrowthStatistics.zero : GrowthStatistics := ⟨0, 0, 0, 0, 0⟩

/-! ## `strconv.Itoa` -/

/-- Decimal rendering of an integer, as `strconv.Itoa` gives it. -/
def Itoa (i : Int) : String :=
  if i < 0 then "-" ++ Nat.repr i.natAbs else Nat.repr i.natAbs

/-! ## `PrintGrowthTableRow` -/

/-- What `PrintGrowthTableRow` prints: whether the rule line precedes the row,
the label, and for each metric the value and its delta. -/
structure GrowthRow where
  separatorBefore : Bool
  yearDisplay : String
  commits : Int
  commitsDifference : Float64
  trees : Int
  treesDifference : Float64
  blobs : Int
  blobsDifference : Float64
  compressed : Int
  compressedDifference : Float64
  deriving DecidableEq

/-- The label and the separator flag of a growth row (lines 34-40). -/
def yearLabel (year : Int) (isEstimate : Bool) (currentYear : Int) : Bool × String :=
  if isEstimate then (false, Itoa year ++ "*")
  else if year = currentYear then (true, Itoa year ++ "^")
  else (false, Itoa year)

/-- The function `PrintGrowthTableRow` (lines 28-48). -/
def PrintGrowthTableRow (statistics previous : GrowthStatistics)
    (information : RepositoryInformation) (isEstimate : Bool) (currentYear : Int) :
    GrowthRow :=
  let commitsDifference :=
    percentOf (wrapInt (statistics.Commits - previous.Commits)) information.TotalCommits
  let treesDifference :=
    percentOf (wrapInt (statistics.Trees - previous.Trees)) information.TotalTrees
  let blobsDifference :=
    percentOf (wrapInt (statistics.Blobs - previous.Blobs)) information.TotalBlobs
  let compressedDifference :=
    percentOf (wrapInt (statistics.Compressed - previous.Compressed)) information.CompressedSize
  let label := yearLabel statistics.Year isEstimate currentYear
  { separatorBefore := label.1
    yearDisplay := label.2
    commits := statistics.Commits
    commitsDifference := commitsDifference
    trees := statistics.Trees
    treesDifference := treesDifference
    blobs := statistics.Blobs
    blobsDifference := blobsDifference
    compressed := statistics.Compressed
    compressedDifference := compressedDifference }

/-! ## `PrintLargestFiles` -/

/-- One printed line of the largest-files table (lines 71-79). -/
structure FileRow where
  path : String
  blobs : Int
  percentageBlobs : Float64
  compressedSize : Int
  percentageSize : Float64
  deriving DecidableEq

/-- The variables the loop of `PrintLargestFiles` carries (lines 58-83). -/
structure LargestFilesLoop where
  rows : List FileRow
  totalSelectedBlobs : Int
  totalSelectedSize : Int
  deriving DecidableEq

/-- One iteration of the loop of `PrintLargestFiles` (lines 62-83). -/
def largestFilesStep (totalFilesSize totalBlobs : Int) (state : LargestFilesLoop)
    (file : FileInformation) : LargestFilesLoop :=
  let percentageSize := percentOf file.CompressedSize totalFilesSize
  let percentageBlobs := percentOf file.Blobs totalBlobs
  { rows := state.rows ++
      [{ path := file.Path
         blobs := file.Blobs
         percentageBlobs := percentageBlobs
         compressedSize := file.CompressedSize
         percentageSize := percentageSize }]
    totalSelectedBlobs := wrapInt (state.totalSelectedBlobs + file.Blobs)
    totalSelectedSize := wrapInt (state.totalSelectedSize + file.CompressedSize) }

/-- What `PrintLargestFiles` prints: the file lines, the "Top" line and the
"Out of" line. -/
structure LargestFilesReport where
  rows : List FileRow
  topCount : Int
  totalSelectedBlobs : Int
  selectedBlobsPercentage : Float64
  totalSelectedSize : Int
  selectedSizePercentage : Float64
  outOf : Int
  totalBlobs : Int
  totalBlobsPercentage : Float64
  totalFilesSize : Int
  totalSizePercentage : Float64
  deriving DecidableEq

/-- The function `PrintLargestFiles` (lines 51-103).  The `git log` lookup of
lines 64-69 only fills the date column and is left out. -/
def PrintLargestFiles (files : List FileInformation) (totalFilesSize totalBlobs totalFiles : Int) :
    LargestFilesReport :=
  let final := files.foldl (largestFilesStep totalFilesSize totalBlobs) ⟨[], 0, 0⟩
  { rows := final.rows
    topCount := (files.length : Int)
    totalSelectedBlobs := final.totalSelectedBlobs
    selectedBlobsPercentage := percentOf final.totalSelectedBlobs totalBlobs
    totalSelectedSize := final.totalSelectedSize
    selectedSizePercentage := percentOf final.totalSelectedSize totalFilesSize
    outOf := totalFiles
    totalBlobs := totalBlobs
    totalBlobsPercentage := Float64.finite 100
    totalFilesSize := totalFilesSize
    totalSizePercentage := Float64.finite 100 }

/-! ## `filepath.Ext` -/

/-- The loop of `filepath.Ext`: the characters of the path are visited from the
last one backwards, `acc` holding those already passed; the scan stops with the
empty result at a path separator and with the suffix at the first dot met. -/
def extScan : List Char → List Char → List Char
  | [], _ => []
  | c :: rest, acc =>
      if c = '/' then [] else if c = '.' then c :: acc else extScan rest (c :: acc)

/-- The function `filepath.Ext` of the Go library (with `/` as the separator):
the suffix beginning at the final dot in the final element of the path, and
the empty string if there is no such dot. -/
def Ext (path : String) : String := ⟨extScan path.data.reverse []⟩

/-- The group key of a path (lines 113-116). -/
def extensionKey (path : String) : String :=
  let extension := Ext path
  if extension = "" then "No Extension" else extension

/-! ## `PrintTopFileExtensions` -/

/-- The value type of the map `extensionStatistics` (lines 107-111). -/
structure ExtensionTotals where
  size : Int
  filesCount : Int
  blobsCount : Int
  deriving DecidableEq

/-- The map `extensionStatistics`, as the list of its entries, each key once,
in the order in which the keys were first written. -/
abbrev ExtensionMap := List (String × ExtensionTotals)

/-- The entry of a key, if the map has one. -/
def mapFind : ExtensionMap → String → Option ExtensionTotals
  | [], _ => none
  | (k, v) :: rest, key => if k = key then some v else mapFind rest key

/-- The map read `m[key]`: the zero value when the key is absent. -/
def mapGet (m : ExtensionMap) (key : String) : ExtensionTotals :=
  (mapFind m key).getD ⟨0, 0, 0⟩

/-- The map write `m[key] = value`. -/
def mapSet : ExtensionMap → String → ExtensionTotals → ExtensionMap
  | [], key, value => [(key, value)]
  | (k, v) :: rest, key, value =>
      if k = key then (k, value) :: rest else (k, v) :: mapSet rest key value

/-- One iteration of the grouping loop (lines 112-122). -/
def groupStep (extensionStatistics : ExtensionMap) (blob : FileInformation) : ExtensionMap :=
  let extension := extensionKey blob.Path
  let statistics := mapGet extensionStatistics extension
  mapSet extensionStatistics extension
    { size := wrapInt (statistics.size + blob.CompressedSize)
      filesCount := wrapInt (statistics.filesCount + 1)
      blobsCount := wrapInt (statistics.blobsCount + blob.Blobs) }

/-- The grouping loop of `PrintTopFileExtensions` (lines 107-122). -/
def groupByExtension (blobs : List FileInformation) : ExtensionMap :=
  blobs.foldl groupStep []

/-- The element type of the slice that is sorted (lines 125-130). -/
structure extensionStatistic where
  extension : String
  size : Int
  filesCount : Int
  blobsCount : Int
  deriving DecidableEq

/-- The slice element made of a map entry (lines 133-138). -/
def toStatistic (entry : String × ExtensionTotals) : extensionStatistic :=
  { extension := entry.1
    size := entry.2.size
    filesCount := entry.2.filesCount
    blobsCount := entry.2.blobsCount }

/-- A `range` over a Go map visits every entry once, in an order the language
leaves unspecified: the slice built at lines 131-139 is some rearrangement of
the entries. -/
def IsRangeOrder (extensionStatistics : ExtensionMap) (statistics : List extensionStatistic) :
    Prop :=
  statistics.Perm (extensionStatistics.map toStatistic)

/-- The comparison handed to `sort.Slice` (line 141). -/
def sizeLess (a b : extensionStatistic) : Bool := decide (a.size > b.size)

/-- The contract of `sort.Slice` of the Go library, which "is not guaranteed to
be stable": the result is a rearrangement of the input in which no later
element is less than an earlier one. -/
def IsSortSliceResult (input output : List extensionStatistic) : Prop :=
  output.Perm input ∧ output.Pairwise (fun earlier later => sizeLess later earlier = false)

/-- The slices `statistics` may be after line 142. -/
def IsSortedStatistics (blobs : List FileInformation) (statistics : List extensionStatistic) :
    Prop :=
  ∃ ranged, IsRangeOrder (groupByExtension blobs) ranged ∧ IsSortSliceResult ranged statistics

/-- The variables of the totals loop (lines 145-151). -/
structure ExtensionSums where
  filesCount : Int
  blobsCount : Int
  size : Int
  deriving DecidableEq

/-- The totals loop over the map (lines 147-151).  The entries are added in
the order of the list; the result is the same in any order (`totalsOfMap_eq`). -/
def totalsOfMap (extensionStatistics : ExtensionMap) : ExtensionSums :=
  extensionStatistics.foldl
    (fun sums entry =>
      { filesCount := wrapInt (sums.filesCount + entry.2.filesCount)
        blobsCount := wrapInt (sums.blobsCount + entry.2.blobsCount)
        size := wrapInt (sums.size + entry.2.size) })
    ⟨0, 0, 0⟩

/-- The truncation to the top 10 (lines 154-156). -/
def limitTop (statistics : List extensionStatistic) : List extensionStatistic :=
  if statistics.length > 10 then statistics.take 10 else statistics

/-- One printed line of the extensions table (lines 169-173). -/
structure ExtensionRow where
  extension : String
  filesCount : Int
  percentageFiles : Float64
  blobsCount : Int
  percentageBlobs : Float64
  size : Int
  percentageSize : Float64
  deriving DecidableEq

/-- The variables of the display loop (lines 159-178). -/
structure ExtensionLoop where
  rows : List ExtensionRow
  selectedFilesCount : Int
  selectedBlobsCount : Int
  selectedSize : Int
  deriving DecidableEq

/-- One iteration of the display loop (lines 168-178). -/
def extensionStep (totalExtFilesCount totalBlobs totalSize : Int) (state : ExtensionLoop)
    (statistic : extensionStatistic) : ExtensionLoop :=
  let percentageFiles := percentOf statistic.filesCount totalExtFilesCount
  let percentageBlobs := percentOf statistic.blobsCount totalBlobs
  let percentageSize := percentOf statistic.size totalSize
  { rows := state.rows ++
      [{ extension := statistic.extension
         filesCount := statistic.filesCount
         percentageFiles := percentageFiles
         blobsCount := statistic.blobsCount
         percentageBlobs := percentageBlobs
         size := statistic.size
         percentageSize := percentageSize }]
    selectedFilesCount := wrapInt (state.selectedFilesCount + statistic.filesCount)
    selectedBlobsCount := wrapInt (state.selectedBlobsCount + statistic.blobsCount)
    selectedSize := wrapInt (state.selectedSize + statistic.size) }

/-- What `PrintTopFileExtensions` prints: the extension lines, the "Top" line
and the "Out of" line. -/
structure ExtensionReport where
  rows : List ExtensionRow
  topCount : Int
  selectedFilesCount : Int
  selectedFilesPercentage : Float64
  selectedBlobsCount : Int
  selectedBlobsPercentage : Float64
  selectedSize : Int
  selectedSizePercentage : Float64
  outOf : Int
  totalExtFilesCount : Int
  totalFilesPercentage : Float64
  totalExtBlobsCount : Int
  totalBlobsPercentage : Float64
  totalExtSize : Int
  totalSizePercentage : Float64
  deriving DecidableEq

/-- Lines 144-199 of `PrintTopFileExtensions`, run on the map of line 122 and
on the slice `sorted` that line 142 leaves. -/
def reportOfSorted (extensionStatistics : ExtensionMap) (sorted : List extensionStatistic)
    (totalBlobs totalSize : Int) : ExtensionReport :=
  let totals := totalsOfMap extensionStatistics
  let statistics := limitTop sorted
  let final := statistics.foldl (extensionStep totals.filesCount totalBlobs totalSize) ⟨[], 0, 0, 0⟩
  { rows := final.rows
    topCount := (statistics.length : Int)
    selectedFilesCount := final.selectedFilesCount
    selectedFilesPercentage := percentOf final.selectedFilesCount totals.filesCount
    selectedBlobsCount := final.selectedBlobsCount
    selectedBlobsPercentage := percentOf final.selectedBlobsCount totals.blobsCount
    selectedSize := final.selectedSize
    selectedSizePercentage := percentOf final.selectedSize totals.size
    outOf := (extensionStatistics.length : Int)
    totalExtFilesCount := totals.filesCount
    totalFilesPercentage := Float64.finite 100
    totalExtBlobsCount := totals.blobsCount
    totalBlobsPercentage := Float64.finite 100
    totalExtSize := totals.size
    totalSizePercentage := Float64.finite 100 }

/-- The function `PrintTopFileExtensions` (lines 106-200), as the relation
between its arguments and the reports it may print: one for each order the
map range and `sort.Slice` may leave the slice in. -/
def PrintTopFileExtensions (blobs : List FileInformation) (totalBlobs totalSize : Int)
    (report : ExtensionReport) : Prop :=
  ∃ sorted, IsSortedStatistics blobs sorted ∧
    report = reportOfSorted (groupByExtension blobs) sorted totalBlobs totalSize

/-- A sort that meets the contract of `sort.Slice`: insertion by size. -/
def sortBySize (statistics : List extensionStatistic) : List extensionStatistic :=
  List.insertionSort (fun a b => a.size ≥ b.size) statistics

/-- One run of `PrintTopFileExtensions`: the map is ranged in the order of
first appearance of the keys and the slice is sorted by `sortBySize`. -/
def runTopFileExtensions (blobs : List FileInformation) (totalBlobs totalSize : Int) :
    ExtensionReport :=
  reportOfSorted (groupByExtension blobs)
    (sortBySize ((groupByExtension blobs).map toStatistic)) totalBlobs totalSize

/-! ## Harness of the growth table -/

/-- The rows of a growth table: every row after the first is printed with the
row before it as `previous`. -/
def growthRows (information : RepositoryInformation) (estimated : GrowthStatistics → Bool)
    (currentYear : Int) : List GrowthStatistics → List GrowthRow
  | [] => []
  | [_] => []
  | previous :: statistics :: rest =>
      PrintGrowthTableRow statistics previous information (estimated statistics) currentYear ::
        growthRows information estimated currentYear (statistics :: rest)

/-- No difference of a metric between the two records overflows. -/
def fitsDifferences (statistics previous : GrowthStatistics) : Prop :=
  fitsInt (statistics.Commits - previous.Commits) ∧
  fitsInt (statistics.Trees - previous.Trees) ∧
  fitsInt (statistics.Blobs - previous.Blobs) ∧
  fitsInt (statistics.Compressed - previous.Compressed)

instance (statistics previous : GrowthStatistics) :
    Decidable (fitsDifferences statistics previous) := by
  unfold fitsDifferences; exact inferInstance

/-- The four counts of a record are non-negative 64-bit values. -/
def validCounts (g : GrowthStatistics) : Prop :=
  (0 ≤ g.Commits ∧ g.Commits < 9223372036854775808) ∧
  (0 ≤ g.Trees ∧ g.Trees < 9223372036854775808) ∧
  (0 ≤ g.Blobs ∧ g.Blobs < 9223372036854775808) ∧
  (0 ≤ g.Compressed ∧ g.Compressed < 9223372036854775808)

/-- The input is a list of files of a repository: no count is negative and
the sums of the counts, like the number of files, fit a 64-bit integer. -/
def validFiles (blobs : List FileInformation) : Prop :=
  (∀ f ∈ blobs, 0 ≤ f.Blobs ∧ 0 ≤ f.CompressedSize) ∧
  (blobs.map (fun f => f.Blobs)).sum < 9223372036854775808 ∧
  (blobs.map (fun f => f.CompressedSize)).sum < 9223372036854775808 ∧
  (blobs.length : Int) < 9223372036854775808

/-- No entry of the map holds a negative count. -/
def nonnegMap (m : ExtensionMap) : Prop :=
  ∀ e ∈ m, 0 ≤ e.2.size ∧ 0 ≤ e.2.filesCount ∧ 0 ≤ e.2.blobsCount

/-- The exact sum of the sizes held by a map. -/
def sumSize (m : ExtensionMap) : Int := (m.map (fun e => e.2.size)).sum

/-- The exact sum of the file counts held by a map. -/
def sumFiles (m : ExtensionMap) : Int := (m.map (fun e => e.2.filesCount)).sum

/-- The exact sum of the blob counts held by a map. -/
def sumBlobs (m : ExtensionMap) : Int := (m.map (fun e => e.2.blobsCount)).sum

/-- The outcome of `float64(n) / float64(0) * 100`. -/
def zeroDivide (n : Int) : Float64 :=
  if n = 0 then Float64.nan else if 0 < n then Float64.posInf else Float64.negInf

/-- The group a printed line of the extensions table stands for. -/
def ExtensionRow.statistic (row : ExtensionRow) : extensionStatistic :=
  { extension := row.extension
    size := row.size
    filesCount := row.filesCount
    blobsCount := row.blobsCount }

/-- The four totals of the repository are 64-bit values. -/
def validInformation (information : RepositoryInformation) : Prop :=
  fitsInt information.TotalCommits ∧ fitsInt information.TotalTrees ∧
  fitsInt information.TotalBlobs ∧ fitsInt information.CompressedSize

instance (information : RepositoryInformation) : Decidable (validInformation information) := by
  unfold validInformation; exact inferInstance

/-- The four metrics of the growth table. -/
inductive Metric where
  | commits
  | trees
  | blobs
  | compressed
  deriving DecidableEq

/-- The count of a metric in a yearly record. -/
def Metric.count : Metric → GrowthStatistics → Int
  | .commits, g => g.Commits
  | .trees, g => g.Trees
  | .blobs, g => g.Blobs
  | .compressed, g => g.Compressed

/-- The all-time total of a metric. -/
def Metric.total : Metric → RepositoryInformation → Int
  | .commits, i => i.TotalCommits
  | .trees, i => i.TotalTrees
  | .blobs, i => i.TotalBlobs
  | .compressed, i => i.CompressedSize

/-- The delta of a metric on a printed row. -/
def Metric.difference : Metric → GrowthRow → Float64
  | .commits, r => r.commitsDifference
  | .trees, r => r.treesDifference
  | .blobs, r => r.blobsDifference
  | .compressed, r => r.compressedDifference

/-- The exact value `(statistics.metric - previous.metric) / total * 100` that a
delta stands for. -/
def exactDelta (metric : Metric) (information : RepositoryInformation)
    (previous statistics : GrowthStatistics) : ℚ :=
  ((metric.count statistics : ℚ) - (metric.count previous : ℚ)) /
    (metric.total information : ℚ) * 100

/-! ## Basic facts -/

theorem wrapInt_of_fits {x : Int} (h : fitsInt x) : wrapInt x = x := by
  unfold fitsInt at h
  unfold wrapInt
  omega

theorem fitsInt_wrapInt (x : Int) : fitsInt (wrapInt x) := by
  unfold fitsInt wrapInt
  omega

theorem roundHalfEven_near (x : ℚ) : |(roundHalfEven x : ℚ) - x| ≤ 1 / 2 := by
  have h1 := Int.floor_le x
  have h2 := Int.lt_floor_add_one x
  unfold roundHalfEven
  split
  · rw [abs_le]; constructor <;> linarith
  · split
    · rw [abs_le]; push_cast; constructor <;> linarith
    · split
      · rw [abs_le]; constructor <;> linarith
      · rw [abs_le]; push_cast; constructor <;> linarith

theorem roundHalfEven_of_near (x : ℚ) (m : Int) (h : |x - (m : ℚ)| < 1 / 2) :
    roundHalfEven x = m := by
  rw [abs_lt] at h
  obtain ⟨h1, h2⟩ := h
  have hf1 := Int.floor_le x
  have hf2 := Int.lt_floor_add_one x
  have hfloor : ⌊x⌋ = m ∨ ⌊x⌋ = m - 1 := by
    have a1 : (⌊x⌋ : ℚ) < (m : ℚ) + 1 := by linarith
    have a2 : (m : ℚ) - 2 < (⌊x⌋ : ℚ) := by linarith
    have a1' : ⌊x⌋ < m + 1 := by exact_mod_cast a1
    have a2' : m - 2 < ⌊x⌋ := by exact_mod_cast a2
    omega
  unfold roundHalfEven
  rcases hfloor with hf | hf
  · rw [hf]
    rw [if_pos (by linarith)]
  · rw [hf]
    have c : ((m - 1 : Int) : ℚ) = (m : ℚ) - 1 := by push_cast; ring
    rw [c]
    rw [if_neg (by linarith), if_pos (by linarith)]
    ring

theorem roundHalfEven_intCast (n : Int) : roundHalfEven (n : ℚ) = n :=
  roundHalfEven_of_near _ n (by simp)

theorem ulpExponent_eq (q : ℚ) (e : Int) (he : -1074 ≤ e)
    (hlo : (2 : ℚ) ^ (e + 52) ≤ |q|) (hhi : |q| < (2 : ℚ) ^ (e + 53)) :
    ulpExponent q = e := by
  have hpos : 0 < |q| := lt_of_lt_of_le (zpow_pos (by norm_num) _) hlo
  have h1 : e + 52 ≤ Int.log 2 |q| := by
    have := (Int.zpow_le_iff_le_log (b := 2) (by norm_num) hpos (x := e + 52)).1
      (by exact_mod_cast hlo)
    exact this
  have h2 : Int.log 2 |q| < e + 53 := by
    have := (Int.lt_zpow_iff_log_lt (b := 2) (by norm_num) hpos (x := e + 53)).1
      (by exact_mod_cast hhi)
    exact this
  unfold ulpExponent
  omega

theorem round64_of_parts (q : ℚ) (e m : Int) (he : ulpExponent q = e)
    (hm : roundHalfEven (q / (2 : ℚ) ^ e) = m)
    (hov : |(m : ℚ) * (2 : ℚ) ^ e| < (2 : ℚ) ^ (1024 : Nat)) :
    round64 q = Float64.finite ((m : ℚ) * (2 : ℚ) ^ e) := by
  rw [abs_lt] at hov
  unfold round64
  rw [he, hm, if_neg (not_le.2 hov.2), if_neg (not_le.2 hov.1)]

theorem round64_eval (q : ℚ) (e m : Int) (he : -1074 ≤ e)
    (hlo : (2 : ℚ) ^ (e + 52) ≤ |q|) (hhi : |q| < (2 : ℚ) ^ (e + 53))
    (hm : |q / (2 : ℚ) ^ e - (m : ℚ)| < 1 / 2)
    (hov : |(m : ℚ) * (2 : ℚ) ^ e| < (2 : ℚ) ^ (1024 : Nat)) :
    round64 q = Float64.finite ((m : ℚ) * (2 : ℚ) ^ e) :=
  round64_of_parts q e m (ulpExponent_eq q e he hlo hhi) (roundHalfEven_of_near _ m hm) hov

theorem round64_zero : round64 0 = Float64.finite 0 := by
  have h : roundHalfEven (0 / (2 : ℚ) ^ ulpExponent 0) = 0 := by
    rw [zero_div]
    exact roundHalfEven_intCast 0
  have := round64_of_parts 0 (ulpExponent 0) 0 rfl h (by simp)
  simpa using this

theorem round64_dyadic (m k : Int) (hm : |(m : ℚ)| < (2 : ℚ) ^ (53 : Nat)) (hk : -1074 ≤ k)
    (hk' : k ≤ 970) :
    round64 ((m : ℚ) * (2 : ℚ) ^ k) = Float64.finite ((m : ℚ) * (2 : ℚ) ^ k) := by
  by_cases h0 : m = 0
  · subst h0
    simpa using round64_zero
  have two_pos : (0 : ℚ) < 2 := by norm_num
  have hq : 0 < |(m : ℚ) * (2 : ℚ) ^ k| := by
    rw [abs_pos]
    exact mul_ne_zero (by exact_mod_cast h0) (zpow_ne_zero _ two_pos.ne')
  have habs : |(m : ℚ) * (2 : ℚ) ^ k| = |(m : ℚ)| * (2 : ℚ) ^ k := by
    rw [abs_mul, abs_of_pos (zpow_pos two_pos k)]
  have hlt : |(m : ℚ) * (2 : ℚ) ^ k| < (2 : ℚ) ^ (k + 53) := by
    rw [habs, add_comm, zpow_add₀ two_pos.ne']
    exact mul_lt_mul_of_pos_right (by exact_mod_cast hm) (zpow_pos two_pos k)
  have hlog : Int.log 2 |(m : ℚ) * (2 : ℚ) ^ k| < k + 53 :=
    (Int.lt_zpow_iff_log_lt (b := 2) (by norm_num) hq (x := k + 53)).1 (by exact_mod_cast hlt)
  obtain ⟨E, hE⟩ : ∃ E, ulpExponent ((m : ℚ) * (2 : ℚ) ^ k) = E := ⟨_, rfl⟩
  have hle : E ≤ k := by
    rw [← hE]
    unfold ulpExponent
    omega
  obtain ⟨d, hd⟩ : ∃ d : Nat, k = E + (d : Int) := ⟨(k - E).toNat, by omega⟩
  have e1 : (2 : ℚ) ^ k = (2 : ℚ) ^ E * (2 : ℚ) ^ d := by
    rw [hd, zpow_add₀ two_pos.ne', zpow_natCast]
  have hE0 : (2 : ℚ) ^ E ≠ 0 := zpow_ne_zero _ two_pos.ne'
  have hdiv : (m : ℚ) * (2 : ℚ) ^ k / (2 : ℚ) ^ E = ((m * 2 ^ d : Int) : ℚ) := by
    rw [e1]
    push_cast
    field_simp
    ring
  have hround : roundHalfEven ((m : ℚ) * (2 : ℚ) ^ k / (2 : ℚ) ^ E) = m * 2 ^ d := by
    rw [hdiv]
    exact roundHalfEven_intCast _
  have hval : ((m * 2 ^ d : Int) : ℚ) * (2 : ℚ) ^ E = (m : ℚ) * (2 : ℚ) ^ k := by
    rw [e1]
    push_cast
    ring
  have hov : |((m * 2 ^ d : Int) : ℚ) * (2 : ℚ) ^ E| < (2 : ℚ) ^ (1024 : Nat) := by
    rw [hval]
    refine lt_of_lt_of_le hlt ?_
    rw [← zpow_natCast]
    exact zpow_le_zpow_right₀ (by norm_num) (by push_cast; omega)
  rw [round64_of_parts _ _ _ hE hround hov, hval]

theorem round64_intCast (n : Int) (hn : |n| ≤ 9007199254740992) :
    round64 (n : ℚ) = Float64.finite (n : ℚ) := by
  by_cases h : |n| < 9007199254740992
  · have := round64_dyadic n 0 (by
      have : |(n : ℚ)| < 9007199254740992 := by exact_mod_cast h
      norm_num
      exact this) (by norm_num) (by norm_num)
    simpa using this
  · have hn' : n = 9007199254740992 ∨ n = -9007199254740992 := by
      rcases abs_cases n with ⟨h1, _⟩ | ⟨h1, _⟩ <;> omega
    rcases hn' with h1 | h1
    · have := round64_dyadic 1 53 (by norm_num) (by norm_num) (by norm_num)
      rw [h1]
      norm_num at this ⊢
      exact this
    · have := round64_dyadic (-1) 53 (by norm_num) (by norm_num) (by norm_num)
      rw [h1]
      norm_num at this ⊢
      exact this

theorem round64_core (q : ℚ) (hq : (2 : ℚ) ^ (-1022 : Int) ≤ |q|) :
    |(roundHalfEven (q / (2 : ℚ) ^ ulpExponent q) : ℚ) * (2 : ℚ) ^ ulpExponent q - q|
      ≤ |q| / 2 ^ (53 : Nat) := by
  have two_pos : (0 : ℚ) < 2 := by norm_num
  have hpos : 0 < |q| := lt_of_lt_of_le (zpow_pos two_pos _) hq
  have hlog : -1022 ≤ Int.log 2 |q| :=
    (Int.zpow_le_iff_le_log (b := 2) (by norm_num) hpos (x := -1022)).1 (by exact_mod_cast hq)
  have hself : (2 : ℚ) ^ Int.log 2 |q| ≤ |q| := by
    have := Int.zpow_log_le_self (b := 2) (by norm_num) hpos
    exact_mod_cast this
  obtain ⟨E, hE⟩ : ∃ E, ulpExponent q = E := ⟨_, rfl⟩
  have hEval : Int.log 2 |q| = E + 52 := by
    rw [← hE]
    unfold ulpExponent
    omega
  rw [hE]
  rw [hEval] at hself
  have hE0 : (0 : ℚ) < (2 : ℚ) ^ E := zpow_pos two_pos E
  have hnear := roundHalfEven_near (q / (2 : ℚ) ^ E)
  have hfact : (roundHalfEven (q / (2 : ℚ) ^ E) : ℚ) * (2 : ℚ) ^ E - q
      = ((roundHalfEven (q / (2 : ℚ) ^ E) : ℚ) - q / (2 : ℚ) ^ E) * (2 : ℚ) ^ E := by
    field_simp
  rw [hfact, abs_mul, abs_of_pos hE0]
  have h52 : (2 : ℚ) ^ (E + 52) = (2 : ℚ) ^ E * 2 ^ (52 : Nat) := by
    rw [zpow_add₀ two_pos.ne']
    norm_num
  rw [h52] at hself
  have hstep : |(roundHalfEven (q / (2 : ℚ) ^ E) : ℚ) - q / (2 : ℚ) ^ E| * (2 : ℚ) ^ E
      ≤ 1 / 2 * (2 : ℚ) ^ E := mul_le_mul_of_nonneg_right hnear hE0.le
  rw [le_div_iff₀ (by norm_num)]
  have h53 : (2 : ℚ) ^ (53 : Nat) = 2 * 2 ^ (52 : Nat) := by norm_num
  rw [h53]
  nlinarith [hstep, hself]

theorem round64_cases (q : ℚ) (hq : (2 : ℚ) ^ (-1022 : Int) ≤ |q|) :
    (∃ v, round64 q = Float64.finite v ∧ |v - q| ≤ |q| / 2 ^ (53 : Nat)) ∨
      (0 < q ∧ round64 q = Float64.posInf) ∨ (q < 0 ∧ round64 q = Float64.negInf) := by
  have hcore := round64_core q hq
  have hpos : 0 < |q| := lt_of_lt_of_le (zpow_pos (by norm_num) _) hq
  have hsmall : |q| / 2 ^ (53 : Nat) < |q| := div_lt_self hpos (by norm_num)
  have hbig : (0 : ℚ) < (2 : ℚ) ^ (1024 : Nat) := by positivity
  rw [abs_le] at hcore
  unfold round64
  split
  · rename_i h1
    right; left
    refine ⟨?_, rfl⟩
    by_contra hneg
    have hq0 : q ≤ 0 := not_lt.1 hneg
    rw [abs_of_nonpos hq0] at hcore hsmall
    linarith [hcore.2]
  · split
    · rename_i h1 h2
      right; right
      refine ⟨?_, rfl⟩
      by_contra hneg
      have hq0 : 0 ≤ q := not_lt.1 hneg
      rw [abs_of_nonneg hq0] at hcore hsmall
      linarith [hcore.1]
    · left
      exact ⟨_, rfl, abs_le.2 hcore⟩

theorem round64_finite (q : ℚ) (hlo : (2 : ℚ) ^ (-1022 : Int) ≤ |q|)
    (hhi : |q| ≤ (2 : ℚ) ^ (1023 : Nat)) :
    ∃ v, round64 q = Float64.finite v ∧ |v - q| ≤ |q| / 2 ^ (53 : Nat) := by
  have hcore := round64_core q hlo
  have hpos : 0 < |q| := lt_of_lt_of_le (zpow_pos (by norm_num) _) hlo
  have hsmall : |q| / 2 ^ (53 : Nat) < |q| := div_lt_self hpos (by norm_num)
  have h1024 : (2 : ℚ) ^ (1024 : Nat) = 2 * 2 ^ (1023 : Nat) := by
    rw [pow_succ]
    ring
  have habs := abs_le.1 hcore
  have hq := abs_le.1 (le_refl |q|)
  have hq' := neg_abs_le q
  have hq'' := le_abs_self q
  unfold round64
  rw [if_neg (by rw [h1024]; intro h; linarith), if_neg (by rw [h1024]; intro h; linarith)]
  exact ⟨_, rfl, hcore⟩

theorem tiny_le : (2 : ℚ) ^ (-1022 : Int) ≤ 1 / 2 ^ (80 : Nat) := by
  have h : (2 : ℚ) ^ (-1022 : Int) = ((2 : ℚ) ^ (1022 : Nat))⁻¹ := by
    rw [zpow_neg, ← zpow_natCast]
    norm_num
  rw [h, one_div]
  exact inv_anti₀ (by positivity) (pow_le_pow_right₀ (by norm_num) (by norm_num))

theorem huge_le : (2 : ℚ) ^ (80 : Nat) ≤ 2 ^ (1023 : Nat) :=
  pow_le_pow_right₀ (by norm_num) (by norm_num)

theorem abs_bounds_of_close {x y : ℚ} (h : |y - x| ≤ |x| / 2 ^ (53 : Nat)) :
    |x| / 2 ≤ |y| ∧ |y| ≤ 2 * |x| := by
  have h0 : 0 ≤ |x| := abs_nonneg x
  have hu : |x| / 2 ^ (53 : Nat) ≤ |x| / 2 :=
    div_le_div_of_nonneg_left h0 (by norm_num) (by norm_num)
  have h1 := abs_sub_abs_le_abs_sub x y
  have h2 := abs_sub_abs_le_abs_sub y x
  rw [abs_sub_comm x y] at h1
  constructor <;> linarith

theorem ratio_of_close {x y : ℚ} (hx : x ≠ 0) (h : |y - x| ≤ |x| / 2 ^ (53 : Nat)) :
    |y / x - 1| ≤ 1 / 2 ^ (53 : Nat) := by
  have hxa : 0 < |x| := abs_pos.2 hx
  have e : y / x - 1 = (y - x) / x := by field_simp
  rw [e, abs_div, div_le_iff₀ hxa]
  calc |y - x| ≤ |x| / 2 ^ (53 : Nat) := h
    _ = 1 / 2 ^ (53 : Nat) * |x| := by ring

theorem four_factors {α β γ δ : ℚ} (hα : |α - 1| ≤ 1 / 2 ^ (53 : Nat))
    (hβ : |β - 1| ≤ 1 / 2 ^ (53 : Nat)) (hγ : |γ - 1| ≤ 1 / 2 ^ (53 : Nat))
    (hδ : |δ - 1| ≤ 1 / 2 ^ (53 : Nat)) :
    |α * γ * δ / β - 1| ≤ 1 / 2 ^ (50 : Nat) := by
  rw [abs_le] at hα hβ hγ hδ
  obtain ⟨a1, a2⟩ := hα
  obtain ⟨b1, b2⟩ := hβ
  obtain ⟨c1, c2⟩ := hγ
  obtain ⟨d1, d2⟩ := hδ
  have hβpos : 0 < β := by norm_num at b1; linarith
  have lo : (0 : ℚ) ≤ 1 - 1 / 2 ^ (53 : Nat) := by norm_num
  have hi : (0 : ℚ) ≤ 1 + 1 / 2 ^ (53 : Nat) := by norm_num
  have a1' : 1 - 1 / 2 ^ (53 : Nat) ≤ α := by linarith
  have a2' : α ≤ 1 + 1 / 2 ^ (53 : Nat) := by linarith
  have c1' : 1 - 1 / 2 ^ (53 : Nat) ≤ γ := by linarith
  have c2' : γ ≤ 1 + 1 / 2 ^ (53 : Nat) := by linarith
  have d1' : 1 - 1 / 2 ^ (53 : Nat) ≤ δ := by linarith
  have d2' : δ ≤ 1 + 1 / 2 ^ (53 : Nat) := by linarith
  have hα0 : 0 ≤ α := lo.trans a1'
  have hγ0 : 0 ≤ γ := lo.trans c1'
  have hδ0 : 0 ≤ δ := lo.trans d1'
  have up2 : α * γ ≤ (1 + 1 / 2 ^ (53 : Nat)) * (1 + 1 / 2 ^ (53 : Nat)) :=
    mul_le_mul a2' c2' hγ0 hi
  have up3 : α * γ * δ
      ≤ (1 + 1 / 2 ^ (53 : Nat)) * (1 + 1 / 2 ^ (53 : Nat)) * (1 + 1 / 2 ^ (53 : Nat)) :=
    mul_le_mul up2 d2' hδ0 (mul_nonneg hi hi)
  have dn2 : (1 - 1 / 2 ^ (53 : Nat)) * (1 - 1 / 2 ^ (53 : Nat)) ≤ α * γ :=
    mul_le_mul a1' c1' lo hα0
  have dn3 : (1 - 1 / 2 ^ (53 : Nat)) * (1 - 1 / 2 ^ (53 : Nat)) * (1 - 1 / 2 ^ (53 : Nat))
      ≤ α * γ * δ :=
    mul_le_mul dn2 d1' lo (mul_nonneg hα0 hγ0)
  have e : α * γ * δ / β - 1 = (α * γ * δ - β) / β := by field_simp
  rw [e, abs_div, abs_of_pos hβpos, div_le_iff₀ hβpos, abs_le]
  norm_num at up3 dn3 b1 b2 ⊢
  constructor <;> linarith

theorem ofInt_zero : Float64.ofInt 0 = Float64.finite 0 := by
  unfold Float64.ofInt
  rw [Int.cast_zero]
  exact round64_zero

theorem one_le_abs_cast {a : Int} (ha : a ≠ 0) : (1 : ℚ) ≤ |(a : ℚ)| := by
  have h : (1 : Int) ≤ |a| := Int.one_le_abs ha
  exact_mod_cast h

theorem ofInt_cases {a : Int} (ha : a ≠ 0) :
    (∃ v, Float64.ofInt a = Float64.finite v ∧ |v - (a : ℚ)| ≤ |(a : ℚ)| / 2 ^ (53 : Nat)) ∨
      (0 < a ∧ Float64.ofInt a = Float64.posInf) ∨
      (a < 0 ∧ Float64.ofInt a = Float64.negInf) := by
  have h1 := one_le_abs_cast ha
  have hlo : (2 : ℚ) ^ (-1022 : Int) ≤ |(a : ℚ)| :=
    tiny_le.trans ((by norm_num : (1 : ℚ) / 2 ^ (80 : Nat) ≤ 1).trans h1)
  rcases round64_cases (a : ℚ) hlo with h | ⟨h, h'⟩ | ⟨h, h'⟩
  · exact Or.inl h
  · exact Or.inr (Or.inl ⟨by exact_mod_cast h, h'⟩)
  · exact Or.inr (Or.inr ⟨by exact_mod_cast h, h'⟩)

theorem abs_cast_le_of_fits {a : Int} (ha : fitsInt a) : |(a : ℚ)| ≤ 2 ^ (63 : Nat) := by
  unfold fitsInt at ha
  have h : |a| ≤ 9223372036854775808 := by
    rw [abs_le]
    omega
  have h' : |(a : ℚ)| ≤ 9223372036854775808 := by exact_mod_cast h
  norm_num
  exact h'

theorem ofInt_fits {a : Int} (ha : a ≠ 0) (hfit : fitsInt a) :
    ∃ v, Float64.ofInt a = Float64.finite v ∧ |v - (a : ℚ)| ≤ |(a : ℚ)| / 2 ^ (53 : Nat) := by
  have h1 := one_le_abs_cast ha
  have hlo : (2 : ℚ) ^ (-1022 : Int) ≤ |(a : ℚ)| :=
    tiny_le.trans ((by norm_num : (1 : ℚ) / 2 ^ (80 : Nat) ≤ 1).trans h1)
  have hhi : |(a : ℚ)| ≤ 2 ^ (1023 : Nat) :=
    (abs_cast_le_of_fits hfit).trans
      ((pow_le_pow_right₀ (by norm_num) (by norm_num)).trans huge_le)
  exact round64_finite _ hlo hhi

theorem ne_zero_of_close {x y : ℚ} (hx : x ≠ 0) (h : |y - x| ≤ |x| / 2 ^ (53 : Nat)) :
    y ≠ 0 := by
  have hxa : 0 < |x| := abs_pos.2 hx
  have := (abs_bounds_of_close h).1
  intro hy
  rw [hy, abs_zero] at this
  linarith

theorem pos_of_close {x y : ℚ} (hx : 0 < x) (h : |y - x| ≤ |x| / 2 ^ (53 : Nat)) :
    0 < y := by
  rw [abs_of_pos hx, abs_le] at h
  have : x / 2 ^ (53 : Nat) < x := div_lt_self hx (by norm_num)
  linarith [h.1]

theorem neg_of_close {x y : ℚ} (hx : x < 0) (h : |y - x| ≤ |x| / 2 ^ (53 : Nat)) :
    y < 0 := by
  rw [abs_of_neg hx, abs_le] at h
  have : -x / 2 ^ (53 : Nat) < -x := div_lt_self (by linarith) (by norm_num)
  linarith [h.2]

theorem percentOf_zero (a : Int) : percentOf a 0 = zeroDivide a := by
  unfold percentOf zeroDivide
  rw [ofInt_zero]
  by_cases h0 : a = 0
  · subst h0
    rw [ofInt_zero]
    simp [Float64.div, Float64.mul]
  · rw [if_neg h0]
    have hq : (a : ℚ) ≠ 0 := by exact_mod_cast h0
    rcases ofInt_cases h0 with ⟨v, hv, hc⟩ | ⟨hp, hv⟩ | ⟨hn, hv⟩
    · rw [hv]
      have hv0 := ne_zero_of_close hq hc
      by_cases hp : 0 < a
      · have hpq : (0 : ℚ) < (a : ℚ) := by exact_mod_cast hp
        have := pos_of_close hpq hc
        simp [Float64.div, Float64.mul, hv0, this, hp]
      · have hnq : (a : ℚ) < 0 := by
          have : a < 0 := by omega
          exact_mod_cast this
        have := neg_of_close hnq hc
        simp [Float64.div, Float64.mul, hv0, not_lt.2 this.le, hp]
    · rw [hv]
      simp [Float64.div, Float64.mul, hp]
    · rw [hv]
      have : ¬ 0 < a := by omega
      simp [Float64.div, Float64.mul, this]

theorem round64_one : round64 1 = Float64.finite 1 := by
  have := round64_intCast 1 (by norm_num)
  simpa using this

theorem round64_hundred : round64 100 = Float64.finite 100 := by
  have := round64_intCast 100 (by norm_num)
  simpa using this

theorem percentOf_self {a : Int} (ha : a ≠ 0) (hfit : fitsInt a) :
    percentOf a a = Float64.finite 100 := by
  obtain ⟨v, hv, hc⟩ := ofInt_fits ha hfit
  have hv0 : v ≠ 0 := ne_zero_of_close (by exact_mod_cast ha) hc
  unfold percentOf
  rw [hv]
  simp only [Float64.div, if_neg hv0, div_self hv0, round64_one, Float64.mul, one_mul,
    round64_hundred]

theorem percentOf_eval (a b : Int) (ha : |a| ≤ 9007199254740992) (hb : |b| ≤ 9007199254740992)
    (hb0 : b ≠ 0) (q p : ℚ) (h1 : round64 ((a : ℚ) / (b : ℚ)) = Float64.finite q)
    (h2 : round64 (q * 100) = Float64.finite p) : percentOf a b = Float64.finite p := by
  have hb' : (b : ℚ) ≠ 0 := by exact_mod_cast hb0
  unfold percentOf Float64.ofInt
  rw [round64_intCast a ha, round64_intCast b hb]
  simp only [Float64.div, if_neg hb', h1, Float64.mul, h2]

theorem round64_eval_pos (q : ℚ) (e m : Int) (he : -1074 ≤ e)
    (hlo : (2 : ℚ) ^ (e + 52) ≤ q) (hhi : q < (2 : ℚ) ^ (e + 53))
    (hm : |q / (2 : ℚ) ^ e - (m : ℚ)| < 1 / 2)
    (hov : |(m : ℚ) * (2 : ℚ) ^ e| < (2 : ℚ) ^ (1024 : Nat)) :
    round64 q = Float64.finite ((m : ℚ) * (2 : ℚ) ^ e) := by
  have hq : 0 < q := lt_of_lt_of_le (zpow_pos (by norm_num) _) hlo
  exact round64_eval q e m he (by rwa [abs_of_pos hq]) (by rwa [abs_of_pos hq]) hm hov

theorem percentOf_seven : percentOf 7 100 = Float64.finite (7 + 1 / 2 ^ (50 : Nat)) := by
  have h1 : round64 (((7 : Int) : ℚ) / ((100 : Int) : ℚ))
      = Float64.finite ((5044031582654956 : Int) * (2 : ℚ) ^ (-56 : Int)) :=
    round64_eval_pos _ (-56) 5044031582654956 (by norm_num) (by norm_num) (by norm_num)
      (by norm_num [abs_lt]) (by norm_num [abs_lt])
  have h2 : round64 (((5044031582654956 : Int) : ℚ) * (2 : ℚ) ^ (-56 : Int) * 100)
      = Float64.finite ((7881299347898369 : Int) * (2 : ℚ) ^ (-50 : Int)) :=
    round64_eval_pos _ (-50) 7881299347898369 (by norm_num) (by norm_num) (by norm_num)
      (by norm_num [abs_lt]) (by norm_num [abs_lt])
  rw [percentOf_eval 7 100 (by norm_num) (by norm_num) (by norm_num) _ _ h1 h2]
  norm_num

theorem percentOf_zero_left {b : Int} (hb0 : b ≠ 0) (hb : fitsInt b) :
    percentOf 0 b = Float64.finite 0 := by
  obtain ⟨v, hv, hc⟩ := ofInt_fits hb0 hb
  have hv0 : v ≠ 0 := ne_zero_of_close (by exact_mod_cast hb0) hc
  unfold percentOf
  rw [ofInt_zero, hv]
  simp only [Float64.div, if_neg hv0, zero_div, round64_zero, Float64.mul, zero_mul]

theorem percentOf_approximates (a b : Int) (ha : fitsInt a) (hb : fitsInt b) (hb0 : b ≠ 0) :
    (percentOf a b).approximates ((a : ℚ) / (b : ℚ) * 100) := by
  by_cases ha0 : a = 0
  · subst ha0
    rw [percentOf_zero_left hb0 hb]
    simp [Float64.approximates]
  have haq : (a : ℚ) ≠ 0 := by exact_mod_cast ha0
  have hbq : (b : ℚ) ≠ 0 := by exact_mod_cast hb0
  obtain ⟨a', ha', hca⟩ := ofInt_fits ha0 ha
  obtain ⟨b', hb', hcb⟩ := ofInt_fits hb0 hb
  have ha'0 : a' ≠ 0 := ne_zero_of_close haq hca
  have hb'0 : b' ≠ 0 := ne_zero_of_close hbq hcb
  have hA1 := one_le_abs_cast ha0
  have hB1 := one_le_abs_cast hb0
  have hA2 := abs_cast_le_of_fits ha
  have hB2 := abs_cast_le_of_fits hb
  obtain ⟨hA3, hA4⟩ := abs_bounds_of_close hca
  obtain ⟨hB3, hB4⟩ := abs_bounds_of_close hcb
  have hb'pos : 0 < |b'| := abs_pos.2 hb'0
  -- the quotient is in the normal range
  have hq0 : a' / b' ≠ 0 := div_ne_zero ha'0 hb'0
  have hqlo : 1 / 2 ^ (65 : Nat) ≤ |a' / b'| := by
    rw [abs_div, le_div_iff₀ hb'pos]
    have : 1 / 2 ^ (65 : Nat) * |b'| ≤ 1 / 2 ^ (65 : Nat) * (2 * 2 ^ (63 : Nat)) :=
      mul_le_mul_of_nonneg_left (by linarith) (by norm_num)
    norm_num at this ⊢
    linarith
  have hqhi : |a' / b'| ≤ 2 ^ (65 : Nat) := by
    rw [abs_div, div_le_iff₀ hb'pos]
    have : (2 : ℚ) ^ (65 : Nat) * (1 / 2) ≤ 2 ^ (65 : Nat) * |b'| :=
      mul_le_mul_of_nonneg_left (by linarith) (by norm_num)
    norm_num at this ⊢
    linarith
  have hmid : (1 : ℚ) / 2 ^ (80 : Nat) ≤ 1 / 2 ^ (65 : Nat) := by norm_num
  have hmid' : (2 : ℚ) ^ (65 : Nat) ≤ 2 ^ (80 : Nat) :=
    pow_le_pow_right₀ (by norm_num) (by norm_num)
  obtain ⟨q, hq, hcq⟩ := round64_finite (a' / b') (tiny_le.trans (hmid.trans hqlo))
    (hqhi.trans (hmid'.trans huge_le))
  have hq'0 : q ≠ 0 := ne_zero_of_close hq0 hcq
  obtain ⟨hQ3, hQ4⟩ := abs_bounds_of_close hcq
  have hplo : 1 / 2 ^ (80 : Nat) ≤ |q * 100| := by
    rw [abs_mul]
    norm_num at hqlo ⊢
    linarith
  have hphi : |q * 100| ≤ 2 ^ (80 : Nat) := by
    rw [abs_mul]
    norm_num at hqhi ⊢
    linarith
  have hp0 : q * 100 ≠ 0 := mul_ne_zero hq'0 (by norm_num)
  obtain ⟨p, hp, hcp⟩ := round64_finite (q * 100) (tiny_le.trans hplo) (hphi.trans huge_le)
  have hval : percentOf a b = Float64.finite p := by
    unfold percentOf
    rw [ha', hb']
    simp only [Float64.div, if_neg hb'0, hq, Float64.mul, hp]
  rw [hval]
  show |p - (a : ℚ) / (b : ℚ) * 100| ≤ |(a : ℚ) / (b : ℚ) * 100| / 2 ^ (50 : Nat)
  have r1 := ratio_of_close haq hca
  have r2 := ratio_of_close hbq hcb
  have r3 := ratio_of_close hq0 hcq
  have r4 := ratio_of_close hp0 hcp
  have hfour := four_factors r1 r2 r3 r4
  have hprod : p - (a : ℚ) / (b : ℚ) * 100
      = (a : ℚ) / (b : ℚ) * 100 * (a' / a * (q / (a' / b')) * (p / (q * 100)) / (b' / b) - 1) := by
    field_simp
    ring
  rw [hprod, abs_mul]
  calc |(a : ℚ) / (b : ℚ) * 100| * |a' / a * (q / (a' / b')) * (p / (q * 100)) / (b' / b) - 1|
      ≤ |(a : ℚ) / (b : ℚ) * 100| * (1 / 2 ^ (50 : Nat)) :=
        mul_le_mul_of_nonneg_left hfour (abs_nonneg _)
    _ = |(a : ℚ) / (b : ℚ) * 100| / 2 ^ (50 : Nat) := by ring

theorem fitsDifferences_of_validCounts {statistics previous : GrowthStatistics}
    (hs : validCounts statistics) (hp : validCounts previous) :
    fitsDifferences statistics previous := by
  unfold validCounts at hs hp
  unfold fitsDifferences fitsInt
  omega

theorem approximates_iff (x : Float64) (exact : ℚ) :
    x.approximates exact ↔
      ∃ p, x = Float64.finite p ∧ |p - exact| ≤ |exact| / 2 ^ (50 : Nat) := by
  cases x with
  | finite p =>
    constructor
    · intro h
      exact ⟨p, rfl, h⟩
    · rintro ⟨p', hp, h⟩
      injection hp with hp
      rw [hp]
      exact h
  | posInf =>
    constructor
    · intro h
      exact absurd h (by simp [Float64.approximates])
    · rintro ⟨p, hp, _⟩
      exact Float64.noConfusion hp
  | negInf =>
    constructor
    · intro h
      exact absurd h (by simp [Float64.approximates])
    · rintro ⟨p, hp, _⟩
      exact Float64.noConfusion hp
  | nan =>
    constructor
    · intro h
      exact absurd h (by simp [Float64.approximates])
    · rintro ⟨p, hp, _⟩
      exact Float64.noConfusion hp

theorem percentOf_forty : percentOf 40 1000 = Float64.finite 4 := by
  have h1 : round64 (((40 : Int) : ℚ) / ((1000 : Int) : ℚ))
      = Float64.finite ((5764607523034235 : Int) * (2 : ℚ) ^ (-57 : Int)) :=
    round64_eval_pos _ (-57) 5764607523034235 (by norm_num) (by norm_num) (by norm_num)
      (by norm_num [abs_lt]) (by norm_num [abs_lt])
  have h2 : round64 (((5764607523034235 : Int) : ℚ) * (2 : ℚ) ^ (-57 : Int) * 100)
      = Float64.finite ((4503599627370496 : Int) * (2 : ℚ) ^ (-50 : Int)) :=
    round64_eval_pos _ (-50) 4503599627370496 (by norm_num) (by norm_num) (by norm_num)
      (by norm_num [abs_lt]) (by norm_num [abs_lt])
  rw [percentOf_eval 40 1000 (by norm_num) (by norm_num) (by norm_num) _ _ h1 h2]
  norm_num

theorem percentOf_ninety_three : percentOf 93 100 = Float64.finite 93 := by
  have h1 : round64 (((93 : Int) : ℚ) / ((100 : Int) : ℚ))
      = Float64.finite ((8376695306909123 : Int) * (2 : ℚ) ^ (-53 : Int)) :=
    round64_eval_pos _ (-53) 8376695306909123 (by norm_num) (by norm_num) (by norm_num)
      (by norm_num [abs_lt]) (by norm_num [abs_lt])
  have h2 : round64 (((8376695306909123 : Int) : ℚ) * (2 : ℚ) ^ (-53 : Int) * 100)
      = Float64.finite ((6544293208522752 : Int) * (2 : ℚ) ^ (-46 : Int)) :=
    round64_eval_pos _ (-46) 6544293208522752 (by norm_num) (by norm_num) (by norm_num)
      (by norm_num [abs_lt]) (by norm_num [abs_lt])
  rw [percentOf_eval 93 100 (by norm_num) (by norm_num) (by norm_num) _ _ h1 h2]
  norm_num

theorem percentOf_fifteen : percentOf 15 16 = Float64.finite (9375 / 100) := by
  have h1 : round64 (((15 : Int) : ℚ) / ((16 : Int) : ℚ))
      = Float64.finite ((8444249301319680 : Int) * (2 : ℚ) ^ (-53 : Int)) :=
    round64_eval_pos _ (-53) 8444249301319680 (by norm_num) (by norm_num) (by norm_num)
      (by norm_num [abs_lt]) (by norm_num [abs_lt])
  have h2 : round64 (((8444249301319680 : Int) : ℚ) * (2 : ℚ) ^ (-53 : Int) * 100)
      = Float64.finite ((6597069766656000 : Int) * (2 : ℚ) ^ (-46 : Int)) :=
    round64_eval_pos _ (-46) 6597069766656000 (by norm_num) (by norm_num) (by norm_num)
      (by norm_num [abs_lt]) (by norm_num [abs_lt])
  rw [percentOf_eval 15 16 (by norm_num) (by norm_num) (by norm_num) _ _ h1 h2]
  norm_num

theorem percentOf_hundred_fifty : percentOf 150 160 = Float64.finite (9375 / 100) := by
  have h1 : round64 (((150 : Int) : ℚ) / ((160 : Int) : ℚ))
      = Float64.finite ((8444249301319680 : Int) * (2 : ℚ) ^ (-53 : Int)) :=
    round64_eval_pos _ (-53) 8444249301319680 (by norm_num) (by norm_num) (by norm_num)
      (by norm_num [abs_lt]) (by norm_num [abs_lt])
  have h2 : round64 (((8444249301319680 : Int) : ℚ) * (2 : ℚ) ^ (-53 : Int) * 100)
      = Float64.finite ((6597069766656000 : Int) * (2 : ℚ) ^ (-46 : Int)) :=
    round64_eval_pos _ (-46) 6597069766656000 (by norm_num) (by norm_num) (by norm_num)
      (by norm_num [abs_lt]) (by norm_num [abs_lt])
  rw [percentOf_eval 150 160 (by norm_num) (by norm_num) (by norm_num) _ _ h1 h2]
  norm_num

theorem percentOf_wrapInt_sub {a b t : Int} (hfit : fitsInt (a - b)) (ht : t ≠ 0)
    (htfit : fitsInt t) :
    (percentOf (wrapInt (a - b)) t).approximates (((a : ℚ) - (b : ℚ)) / (t : ℚ) * 100) := by
  rw [wrapInt_of_fits hfit]
  have := percentOf_approximates (a - b) t hfit htfit ht
  rwa [Int.cast_sub] at this

/-! ## The growth table -/

/-- C1, as the code has it: with non-zero totals (64-bit values, and
differences that do not overflow), each delta of `PrintGrowthTableRow` is the
binary64 value of `float64(statistics.metric - previous.metric) /
float64(total) * 100`, the total being the all-time total of the metric and not
the previous value: a finite number within the relative error `2^-50` of the
exact `(statistics.metric - previous.metric) / total * 100`, and of
`statistics.metric / total * 100` when `previous` is the zero value.  For
commits 100 and 140 against a total of 1000 it is exactly 4, and not 40. -/
theorem growth_delta_relative_to_total (statistics previous : GrowthStatistics)
    (information : RepositoryInformation) (isEstimate : Bool) (currentYear : Int)
    (hc : information.TotalCommits ≠ 0) (ht : information.TotalTrees ≠ 0)
    (hb : information.TotalBlobs ≠ 0) (hs : information.CompressedSize ≠ 0)
    (hinfo : validInformation information)
    (hfit : fitsDifferences statistics previous) :
    ((PrintGrowthTableRow statistics previous information isEstimate
          currentYear).commitsDifference.approximates
        (((statistics.Commits : ℚ) - (previous.Commits : ℚ)) /
          (information.TotalCommits : ℚ) * 100) ∧
      (PrintGrowthTableRow statistics previous information isEstimate
          currentYear).treesDifference.approximates
        (((statistics.Trees : ℚ) - (previous.Trees : ℚ)) /
          (information.TotalTrees : ℚ) * 100) ∧
      (PrintGrowthTableRow statistics previous information isEstimate
          currentYear).blobsDifference.approximates
        (((statistics.Blobs : ℚ) - (previous.Blobs : ℚ)) /
          (information.TotalBlobs : ℚ) * 100) ∧
      (PrintGrowthTableRow statistics previous information isEstimate
          currentYear).compressedDifference.approximates
        (((statistics.Compressed : ℚ) - (previous.Compressed : ℚ)) /
          (information.CompressedSize : ℚ) * 100)) ∧
    (previous = GrowthStatistics.zero →
      (PrintGrowthTableRow statistics previous information isEstimate
          currentYear).commitsDifference.approximates
        ((statistics.Commits : ℚ) / (information.TotalCommits : ℚ) * 100) ∧
      (PrintGrowthTableRow statistics previous information isEstimate
          currentYear).treesDifference.approximates
        ((statistics.Trees : ℚ) / (information.TotalTrees : ℚ) * 100) ∧
      (PrintGrowthTableRow statistics previous information isEstimate
          currentYear).blobsDifference.approximates
        ((statistics.Blobs : ℚ) / (information.TotalBlobs : ℚ) * 100) ∧
      (PrintGrowthTableRow statistics previous information isEstimate
          currentYear).compressedDifference.approximates
        ((statistics.Compressed : ℚ) / (information.CompressedSize : ℚ) * 100)) ∧
    ((PrintGrowthTableRow ⟨2024, 140, 0, 0, 0⟩ ⟨2023, 100, 0, 0, 0⟩ ⟨1000, 1, 1, 1⟩ isEstimate
          currentYear).commitsDifference = Float64.finite 4 ∧
      (PrintGrowthTableRow ⟨2024, 140, 0, 0, 0⟩ ⟨2023, 100, 0, 0, 0⟩ ⟨1000, 1, 1, 1⟩ isEstimate
          currentYear).commitsDifference ≠ Float64.finite 40) := by
  obtain ⟨f1, f2, f3, f4⟩ := hfit
  obtain ⟨i1, i2, i3, i4⟩ := hinfo
  have e1 := percentOf_wrapInt_sub f1 hc i1
  have e2 := percentOf_wrapInt_sub f2 ht i2
  have e3 := percentOf_wrapInt_sub f3 hb i3
  have e4 := percentOf_wrapInt_sub f4 hs i4
  refine ⟨⟨e1, e2, e3, e4⟩, ?_, ?_⟩
  · intro hz
    subst hz
    refine ⟨?_, ?_, ?_, ?_⟩
    · simpa [PrintGrowthTableRow, GrowthStatistics.zero] using e1
    · simpa [PrintGrowthTableRow, GrowthStatistics.zero] using e2
    · simpa [PrintGrowthTableRow, GrowthStatistics.zero] using e3
    · simpa [PrintGrowthTableRow, GrowthStatistics.zero] using e4
  · have e : (PrintGrowthTableRow ⟨2024, 140, 0, 0, 0⟩ ⟨2023, 100, 0, 0, 0⟩ ⟨1000, 1, 1, 1⟩
        isEstimate currentYear).commitsDifference = Float64.finite 4 := by
      show percentOf (wrapInt ((140 : Int) - 100)) (1000 : Int) = Float64.finite 4
      rw [wrapInt_of_fits (by unfold fitsInt; omega)]
      exact percentOf_forty
    refine ⟨e, ?_⟩
    rw [e]
    intro h
    injection h with h
    norm_num at h

/-- Witness of C1: the rows of 2023 and 2024 of a repository of 1000 commits. -/
theorem growth_delta_relative_to_total_witness :
    (PrintGrowthTableRow ⟨2024, 140, 70, 35, 7000⟩ ⟨2023, 100, 50, 25, 5000⟩
        ⟨1000, 500, 250, 50000⟩ false 2025).commitsDifference.approximates
      ((((140 : Int) : ℚ) - ((100 : Int) : ℚ)) / ((1000 : Int) : ℚ) * 100) :=
  (growth_delta_relative_to_total ⟨2024, 140, 70, 35, 7000⟩ ⟨2023, 100, 50, 25, 5000⟩
    ⟨1000, 500, 250, 50000⟩ false 2025 (by decide) (by decide) (by decide) (by decide)
    (by decide) (by decide)).1.1

/-- C1 fails as stated: for commits 100 and 107 against a total of 100 the
delta is `7 + 2^-50`, the binary64 result of `7 / 100 * 100`, and not the exact
`(107 - 100) / 100 * 100 = 7`. -/
theorem growth_delta_rounded :
    (PrintGrowthTableRow ⟨2024, 107, 0, 0, 0⟩ ⟨2023, 100, 0, 0, 0⟩ ⟨100, 1, 1, 1⟩ false
        2025).commitsDifference = Float64.finite (7 + 1 / 2 ^ (50 : Nat)) ∧
      (PrintGrowthTableRow ⟨2024, 107, 0, 0, 0⟩ ⟨2023, 100, 0, 0, 0⟩ ⟨100, 1, 1, 1⟩ false
        2025).commitsDifference
        ≠ Float64.finite ((((107 : Int) : ℚ) - ((100 : Int) : ℚ)) / ((100 : Int) : ℚ) * 100) := by
  have e : (PrintGrowthTableRow ⟨2024, 107, 0, 0, 0⟩ ⟨2023, 100, 0, 0, 0⟩ ⟨100, 1, 1, 1⟩ false
      2025).commitsDifference = Float64.finite (7 + 1 / 2 ^ (50 : Nat)) := by
    show percentOf (wrapInt ((107 : Int) - 100)) (100 : Int) = _
    rw [wrapInt_of_fits (by unfold fitsInt; omega)]
    exact percentOf_seven
  refine ⟨e, ?_⟩
  rw [e]
  intro h
  injection h with h
  norm_num at h

theorem metric_difference_approximates (metric : Metric) (information : RepositoryInformation)
    (hne : metric.total information ≠ 0) (hinfo : validInformation information)
    (statistics previous : GrowthStatistics) (isEstimate : Bool) (currentYear : Int)
    (hfit : fitsInt (metric.count statistics - metric.count previous)) :
    (metric.difference
        (PrintGrowthTableRow statistics previous information isEstimate currentYear)).approximates
      (exactDelta metric information previous statistics) := by
  obtain ⟨i1, i2, i3, i4⟩ := hinfo
  cases metric
  · exact percentOf_wrapInt_sub hfit hne i1
  · exact percentOf_wrapInt_sub hfit hne i2
  · exact percentOf_wrapInt_sub hfit hne i3
  · exact percentOf_wrapInt_sub hfit hne i4

theorem fits_of_fitsDifferences (metric : Metric) {statistics previous : GrowthStatistics}
    (h : fitsDifferences statistics previous) :
    fitsInt (metric.count statistics - metric.count previous) := by
  obtain ⟨h1, h2, h3, h4⟩ := h
  cases metric
  · exact h1
  · exact h2
  · exact h3
  · exact h4

theorem growthRows_sum_close (metric : Metric) (information : RepositoryInformation)
    (estimated : GrowthStatistics → Bool) (currentYear : Int)
    (hne : metric.total information ≠ 0) (hinfo : validInformation information) :
    ∀ (rest : List GrowthStatistics) (first : GrowthStatistics),
      List.Chain' (fun p s => fitsDifferences s p) (first :: rest) →
      (∀ r ∈ growthRows information estimated currentYear (first :: rest),
          (metric.difference r).isFinite = true) ∧
        |((growthRows information estimated currentYear (first :: rest)).map
              (fun r => (metric.difference r).toRat)).sum
            - exactDelta metric information first
                ((first :: rest).getLast (List.cons_ne_nil _ _))|
          ≤ (List.zipWith (fun p s => |exactDelta metric information p s|)
                (first :: rest) rest).sum / 2 ^ (50 : Nat) := by
  intro rest
  induction rest with
  | nil =>
    intro first _
    simp [growthRows, exactDelta]
  | cons second rest ih =>
    intro first hchain
    rw [List.chain'_cons] at hchain
    obtain ⟨hstep, htail⟩ := hchain
    obtain ⟨hfin, hsum⟩ := ih second htail
    have hrow := metric_difference_approximates metric information hne hinfo second first
      (estimated second) currentYear (fits_of_fitsDifferences metric hstep)
    obtain ⟨d, hd, hclose⟩ := (approximates_iff _ _).1 hrow
    constructor
    · intro r hr
      simp only [growthRows, List.mem_cons] at hr
      rcases hr with hr | hr
      · rw [hr, hd]
        rfl
      · exact hfin r hr
    · simp only [growthRows, List.map_cons, List.sum_cons, List.zipWith_cons_cons]
      rw [hd, List.getLast_cons (List.cons_ne_nil _ _)]
      simp only [Float64.toRat]
      have hsplit : exactDelta metric information first
            ((second :: rest).getLast (List.cons_ne_nil _ _))
          = exactDelta metric information first second
            + exactDelta metric information second
                ((second :: rest).getLast (List.cons_ne_nil _ _)) := by
        unfold exactDelta
        ring
      rw [hsplit]
      have htri := abs_add (d - exactDelta metric information first second)
        (((growthRows information estimated currentYear (second :: rest)).map
              (fun r => (metric.difference r).toRat)).sum
            - exactDelta metric information second
                ((second :: rest).getLast (List.cons_ne_nil _ _)))
      rw [add_div]
      calc |d + ((growthRows information estimated currentYear (second :: rest)).map
                (fun r => (metric.difference r).toRat)).sum
              - (exactDelta metric information first second
                + exactDelta metric information second
                    ((second :: rest).getLast (List.cons_ne_nil _ _)))|
          = |(d - exactDelta metric information first second)
              + (((growthRows information estimated currentYear (second :: rest)).map
                    (fun r => (metric.difference r).toRat)).sum
                  - exactDelta metric information second
                      ((second :: rest).getLast (List.cons_ne_nil _ _)))| := by
            congr 1
            ring
        _ ≤ _ := htri
        _ ≤ _ := add_le_add hclose hsum

theorem variation_of_monotone (metric : Metric) (information : RepositoryInformation)
    (hpos : 0 < metric.total information) :
    ∀ (rest : List GrowthStatistics) (first : GrowthStatistics),
      List.Chain' (fun p s => metric.count p ≤ metric.count s) (first :: rest) →
      (List.zipWith (fun p s => |exactDelta metric information p s|) (first :: rest) rest).sum
        = exactDelta metric information first
            ((first :: rest).getLast (List.cons_ne_nil _ _)) := by
  intro rest
  induction rest with
  | nil =>
    intro first _
    simp [exactDelta]
  | cons second rest ih =>
    intro first hchain
    rw [List.chain'_cons] at hchain
    obtain ⟨hstep, htail⟩ := hchain
    have hT : (0 : ℚ) < (metric.total information : ℚ) := by exact_mod_cast hpos
    have hcount : (metric.count first : ℚ) ≤ (metric.count second : ℚ) := by exact_mod_cast hstep
    have hnonneg : 0 ≤ exactDelta metric information first second := by
      unfold exactDelta
      exact mul_nonneg (div_nonneg (by linarith) hT.le) (by norm_num)
    simp only [List.zipWith_cons_cons, List.sum_cons]
    rw [ih second htail, abs_of_nonneg hnonneg, List.getLast_cons (List.cons_ne_nil _ _)]
    unfold exactDelta
    ring

/-- C2, as the code has it: the deltas of consecutive rows add up to the
overall growth only up to rounding.  For rows `first, ..., last` printed each
with the row before it as `previous`, against the same non-zero totals (64-bit
values, differences that do not overflow), every delta of a metric is finite
and the sum of the deltas differs from the exact
`(last.metric - first.metric) / total * 100` by at most `2^-50` times the sum of
the absolute exact deltas; for counts that never decrease and a positive total
that is at most `2^-50` times the overall growth itself, so that the deltas of
rows from the zero value up to the all-time total add up to 100 within
`100 * 2^-50`. -/
theorem growth_deltas_telescope (metric : Metric) (information : RepositoryInformation)
    (estimated : GrowthStatistics → Bool) (currentYear : Int)
    (first : GrowthStatistics) (rest : List GrowthStatistics)
    (hne : metric.total information ≠ 0) (hinfo : validInformation information)
    (hfit : List.Chain' (fun p s => fitsDifferences s p) (first :: rest)) :
    (∀ r ∈ growthRows information estimated currentYear (first :: rest),
        (metric.difference r).isFinite = true) ∧
    |((growthRows information estimated currentYear (first :: rest)).map
          (fun r => (metric.difference r).toRat)).sum
        - exactDelta metric information first ((first :: rest).getLast (List.cons_ne_nil _ _))|
      ≤ (List.zipWith (fun p s => |exactDelta metric information p s|)
            (first :: rest) rest).sum / 2 ^ (50 : Nat) ∧
    (0 < metric.total information →
      List.Chain' (fun p s => metric.count p ≤ metric.count s) (first :: rest) →
      |((growthRows information estimated currentYear (first :: rest)).map
            (fun r => (metric.difference r).toRat)).sum
          - exactDelta metric information first ((first :: rest).getLast (List.cons_ne_nil _ _))|
        ≤ exactDelta metric information first ((first :: rest).getLast (List.cons_ne_nil _ _))
            / 2 ^ (50 : Nat) ∧
      (first = GrowthStatistics.zero →
        metric.count ((first :: rest).getLast (List.cons_ne_nil _ _)) = metric.total information →
        |((growthRows information estimated currentYear (first :: rest)).map
              (fun r => (metric.difference r).toRat)).sum - 100| ≤ 100 / 2 ^ (50 : Nat))) := by
  obtain ⟨hfin, hsum⟩ := growthRows_sum_close metric information estimated currentYear hne hinfo
    rest first hfit
  refine ⟨hfin, hsum, ?_⟩
  intro hpos hmono
  have hvar := variation_of_monotone metric information hpos rest first hmono
  rw [hvar] at hsum
  refine ⟨hsum, ?_⟩
  intro hz hlast
  have hT : (metric.total information : ℚ) ≠ 0 := by exact_mod_cast hne
  have hexact : exactDelta metric information first
      ((first :: rest).getLast (List.cons_ne_nil _ _)) = 100 := by
    unfold exactDelta
    rw [hlast, hz]
    have h0 : (metric.count GrowthStatistics.zero : ℚ) = 0 := by
      cases metric <;> simp [Metric.count, GrowthStatistics.zero]
    rw [h0, sub_zero, div_self hT, one_mul]
  rw [hexact] at hsum
  exact hsum

/-- Witness of C2: three years of a repository of 1000 commits, from nothing. -/
theorem growth_deltas_telescope_witness :
    |((growthRows ⟨1000, 500, 250, 50000⟩ (fun _ => false) 2025
        [GrowthStatistics.zero, ⟨2023, 100, 50, 25, 5000⟩, ⟨2024, 1000, 500, 250, 50000⟩]).map
          (fun r => (Metric.commits.difference r).toRat)).sum - 100| ≤ 100 / 2 ^ (50 : Nat) :=
  ((growth_deltas_telescope Metric.commits ⟨1000, 500, 250, 50000⟩ (fun _ => false) 2025
    GrowthStatistics.zero [⟨2023, 100, 50, 25, 5000⟩, ⟨2024, 1000, 500, 250, 50000⟩]
    (by decide) (by decide)
    (List.Chain'.cons (by decide) (List.Chain'.cons (by decide) (List.chain'_singleton _)))).2.2
      (by decide)
      (List.Chain'.cons (by decide) (List.Chain'.cons (by decide) (List.chain'_singleton _)))).2
    rfl rfl

/-- C2 fails as stated: for the rows 0, 7 and 100 commits against a total of
100 commits, from the zero value up to the all-time total, the two deltas are
`7 + 2^-50` and 93 and add up to `100 + 2^-50`, not to 100. -/
theorem growth_deltas_sum_rounded :
    ((growthRows ⟨100, 1, 1, 1⟩ (fun _ => false) 2025
        [GrowthStatistics.zero, ⟨2023, 7, 0, 0, 0⟩, ⟨2024, 100, 0, 0, 0⟩]).map
          (fun r => r.commitsDifference.toRat)).sum = 100 + 1 / 2 ^ (50 : Nat) ∧
      ((growthRows ⟨100, 1, 1, 1⟩ (fun _ => false) 2025
        [GrowthStatistics.zero, ⟨2023, 7, 0, 0, 0⟩, ⟨2024, 100, 0, 0, 0⟩]).map
          (fun r => r.commitsDifference.toRat)).sum
        ≠ (((100 : Int) : ℚ) - ((0 : Int) : ℚ)) / ((100 : Int) : ℚ) * 100 := by
  have e1 : (PrintGrowthTableRow ⟨2023, 7, 0, 0, 0⟩ GrowthStatistics.zero ⟨100, 1, 1, 1⟩ false
      2025).commitsDifference = Float64.finite (7 + 1 / 2 ^ (50 : Nat)) := by
    show percentOf (wrapInt ((7 : Int) - 0)) (100 : Int) = _
    rw [wrapInt_of_fits (by unfold fitsInt; omega)]
    exact percentOf_seven
  have e2 : (PrintGrowthTableRow ⟨2024, 100, 0, 0, 0⟩ ⟨2023, 7, 0, 0, 0⟩ ⟨100, 1, 1, 1⟩ false
      2025).commitsDifference = Float64.finite 93 := by
    show percentOf (wrapInt ((100 : Int) - 7)) (100 : Int) = _
    rw [wrapInt_of_fits (by unfold fitsInt; omega)]
    exact percentOf_ninety_three
  have e : ((growthRows ⟨100, 1, 1, 1⟩ (fun _ => false) 2025
      [GrowthStatistics.zero, ⟨2023, 7, 0, 0, 0⟩, ⟨2024, 100, 0, 0, 0⟩]).map
        (fun r => r.commitsDifference.toRat)).sum = 100 + 1 / 2 ^ (50 : Nat) := by
    simp only [growthRows, List.map_cons, List.map_nil, List.sum_cons, List.sum_nil, e1, e2,
      Float64.toRat]
    norm_num
  refine ⟨e, ?_⟩
  rw [e]
  norm_num

/-! ## The label of a growth row -/

theorem digitChar_not_marker :
    ∀ k, k < 10 → Nat.digitChar k ≠ '*' ∧ Nat.digitChar k ≠ '^' := by
  decide

theorem toDigitsCore_not_marker :
    ∀ (fuel n : Nat) (ds : List Char), (∀ c ∈ ds, c ≠ '*' ∧ c ≠ '^') →
      ∀ c ∈ Nat.toDigitsCore 10 fuel n ds, c ≠ '*' ∧ c ≠ '^' := by
  intro fuel
  induction fuel with
  | zero =>
    intro n ds hds c hc
    simp only [Nat.toDigitsCore] at hc
    exact hds c hc
  | succ fuel ih =>
    intro n ds hds c hc
    have hds' : ∀ c ∈ Nat.digitChar (n % 10) :: ds, c ≠ '*' ∧ c ≠ '^' := by
      intro c hc
      rcases List.mem_cons.1 hc with h | h
      · rw [h]
        exact digitChar_not_marker _ (Nat.mod_lt _ (by decide))
      · exact hds c h
    simp only [Nat.toDigitsCore] at hc
    split at hc
    · exact hds' c hc
    · exact ih _ _ hds' c hc

theorem Itoa_not_marker (i : Int) : ∀ c ∈ (Itoa i).data, c ≠ '*' ∧ c ≠ '^' := by
  have hrepr : ∀ n : Nat, ∀ c ∈ (Nat.repr n).data, c ≠ '*' ∧ c ≠ '^' := by
    intro n c hc
    exact toDigitsCore_not_marker _ _ [] (by simp) c hc
  intro c hc
  unfold Itoa at hc
  split at hc
  · rw [String.data_append] at hc
    rcases List.mem_append.1 hc with h | h
    · have hdash : c = '-' := by simpa using h
      rw [hdash]
      decide
    · exact hrepr _ c h
  · exact hrepr _ c hc

/-- C9, as the code has it: a row that is not flagged as estimated and whose
year is the current year is preceded by the separator line and labelled with
the year and `^`; a row flagged as estimated is labelled with the year and `*`
and has no separator, also when its year is the current year; any other row
is labelled with the bare year; and no label carries both markers. -/
theorem growth_row_label (statistics previous : GrowthStatistics)
    (information : RepositoryInformation) (isEstimate : Bool) (currentYear : Int) :
    (isEstimate = true →
      (PrintGrowthTableRow statistics previous information isEstimate currentYear).yearDisplay
          = Itoa statistics.Year ++ "*" ∧
        (PrintGrowthTableRow statistics previous information isEstimate
          currentYear).separatorBefore = false) ∧
    (isEstimate = false → statistics.Year = currentYear →
      (PrintGrowthTableRow statistics previous information isEstimate currentYear).yearDisplay
          = Itoa statistics.Year ++ "^" ∧
        (PrintGrowthTableRow statistics previous information isEstimate
          currentYear).separatorBefore = true) ∧
    (isEstimate = false → statistics.Year ≠ currentYear →
      (PrintGrowthTableRow statistics previous information isEstimate currentYear).yearDisplay
          = Itoa statistics.Year ∧
        (PrintGrowthTableRow statistics previous information isEstimate
          currentYear).separatorBefore = false) ∧
    ¬ ('*' ∈ (PrintGrowthTableRow statistics previous information isEstimate
          currentYear).yearDisplay.data ∧
       '^' ∈ (PrintGrowthTableRow statistics previous information isEstimate
          currentYear).yearDisplay.data) := by
  have hno := Itoa_not_marker statistics.Year
  refine ⟨?_, ?_, ?_, ?_⟩
  · intro he
    simp [PrintGrowthTableRow, yearLabel, he]
  · intro he hy
    simp [PrintGrowthTableRow, yearLabel, he, hy]
  · intro he hy
    simp [PrintGrowthTableRow, yearLabel, he, hy]
  · rintro ⟨hstar, hcaret⟩
    have happ : ∀ (c : Char) (suffix : String), c ∈ (Itoa statistics.Year ++ suffix).data →
        c ∈ (Itoa statistics.Year).data ∨ c ∈ suffix.data := by
      intro c suffix h
      rw [String.data_append] at h
      exact List.mem_append.1 h
    cases isEstimate with
    | true =>
      simp only [PrintGrowthTableRow, yearLabel, if_true] at hcaret
      rcases happ _ _ hcaret with h | h
      · exact (hno _ h).2 rfl
      · revert h
        decide
    | false =>
      by_cases hy : statistics.Year = currentYear
      · simp only [PrintGrowthTableRow, yearLabel, if_pos hy, Bool.false_eq_true,
          if_false] at hstar
        rcases happ _ _ hstar with h | h
        · exact (hno _ h).1 rfl
        · revert h
          decide
      · simp only [PrintGrowthTableRow, yearLabel, hy, Bool.false_eq_true, if_false] at hstar
        exact (hno _ hstar).1 rfl

/-- Witness of C9: the row of the current year 2024, not estimated. -/
theorem growth_row_label_witness :
    (PrintGrowthTableRow ⟨2024, 140, 0, 0, 0⟩ ⟨2023, 100, 0, 0, 0⟩ ⟨1000, 1, 1, 1⟩ false
        2024).yearDisplay = Itoa 2024 ++ "^" ∧
      (PrintGrowthTableRow ⟨2024, 140, 0, 0, 0⟩ ⟨2023, 100, 0, 0, 0⟩ ⟨1000, 1, 1, 1⟩ false
        2024).separatorBefore = true :=
  (growth_row_label ⟨2024, 140, 0, 0, 0⟩ ⟨2023, 100, 0, 0, 0⟩ ⟨1000, 1, 1, 1⟩ false
    2024).2.1 rfl rfl

/-- C9 fails as stated: an estimated row of the current year has no separator
before it and no `^` in its label. -/
theorem estimated_current_year_row :
    (PrintGrowthTableRow ⟨2024, 140, 0, 0, 0⟩ ⟨2023, 100, 0, 0, 0⟩ ⟨1000, 1, 1, 1⟩ true
        2024).separatorBefore = false ∧
      (PrintGrowthTableRow ⟨2024, 140, 0, 0, 0⟩ ⟨2023, 100, 0, 0, 0⟩ ⟨1000, 1, 1, 1⟩ true
        2024).yearDisplay = "2024*" ∧
      '^' ∉ (PrintGrowthTableRow ⟨2024, 140, 0, 0, 0⟩ ⟨2023, 100, 0, 0, 0⟩ ⟨1000, 1, 1, 1⟩ true
        2024).yearDisplay.data := by
  decide

/-! ## The extension of a path -/

theorem extScan_of_suffix :
    ∀ (l acc rest : List Char), '.' ∉ l → '/' ∉ l →
      extScan (l ++ '.' :: rest) acc = '.' :: (l.reverse ++ acc) := by
  intro l
  induction l with
  | nil =>
    intro acc rest _ _
    simp [extScan]
  | cons c l ih =>
    intro acc rest hdot hsep
    have hc1 : c ≠ '/' := fun h => hsep (by simp [h])
    have hc2 : c ≠ '.' := fun h => hdot (by simp [h])
    have hd : '.' ∉ l := fun h => hdot (List.mem_cons_of_mem _ h)
    have hs : '/' ∉ l := fun h => hsep (List.mem_cons_of_mem _ h)
    have hstep : extScan ((c :: l) ++ '.' :: rest) acc
        = extScan (l ++ '.' :: rest) (c :: acc) := by
      simp only [List.cons_append, extScan, if_neg hc1, if_neg hc2]
      rfl
    rw [hstep, ih (c :: acc) rest hd hs]
    simp

theorem extScan_spec :
    ∀ (l acc : List Char), extScan l acc = [] ∨
      ∃ s r, l = s ++ '.' :: r ∧ '.' ∉ s ∧ '/' ∉ s ∧
        extScan l acc = '.' :: (s.reverse ++ acc) := by
  intro l
  induction l with
  | nil =>
    intro acc
    exact Or.inl rfl
  | cons c l ih =>
    intro acc
    by_cases hc1 : c = '/'
    · left
      simp [extScan, hc1]
    · by_cases hc2 : c = '.'
      · right
        refine ⟨[], l, by simp [hc2], by simp, by simp, ?_⟩
        simp [extScan, hc2]
      · rcases ih (c :: acc) with h | ⟨s, r, hl, hd, hs, h⟩
        · left
          simp [extScan, hc1, hc2, h]
        · right
          refine ⟨c :: s, r, by simp [hl], ?_, ?_, ?_⟩
          · simpa using ⟨fun h => hc2 h.symm, hd⟩
          · simpa using ⟨fun h => hc1 h.symm, hs⟩
          · simp [extScan, hc1, hc2, h]

theorem Ext_of_final_dot (path : String) (pre suf : List Char)
    (hpath : path.data = pre ++ '.' :: suf) (hdot : '.' ∉ suf) (hsep : '/' ∉ suf) :
    Ext path = ⟨'.' :: suf⟩ := by
  unfold Ext
  rw [hpath, List.reverse_append, List.reverse_cons, List.append_assoc, List.singleton_append,
    extScan_of_suffix _ _ _ (by simpa using hdot) (by simpa using hsep)]
  simp

theorem Ext_empty_or_dot (path : String) :
    Ext path = "" ∨ ∃ suf pre, path.data = pre ++ '.' :: suf ∧ '.' ∉ suf ∧ '/' ∉ suf ∧
      Ext path = ⟨'.' :: suf⟩ := by
  rcases extScan_spec path.data.reverse [] with h | ⟨s, r, hl, hd, hs, h⟩
  · left
    unfold Ext
    rw [h]
  · right
    refine ⟨s.reverse, r.reverse, ?_, by simpa using hd, by simpa using hs, ?_⟩
    · have := congrArg List.reverse hl
      simpa using this
    · unfold Ext
      rw [h]
      simp

theorem mk_cons_ne_empty (c : Char) (l : List Char) : (⟨c :: l⟩ : String) ≠ "" := by
  intro h
  have := congrArg String.data h
  simp at this

/-- C10, as the code has it: the group key of a path is the suffix that begins
at, and includes, the final `.` of the final element of the path (the part
after the last `/`), with its case kept; a path whose final element has no
`.` gets the one label "No Extension"; and every other key begins with `.`,
so it is never that label. -/
theorem extension_key_spec (path : String) :
    (∀ pre suf, path.data = pre ++ '.' :: suf → '.' ∉ suf → '/' ∉ suf →
      extensionKey path = ⟨'.' :: suf⟩) ∧
    ((∀ pre suf, path.data = pre ++ '.' :: suf → '/' ∈ suf) →
      extensionKey path = "No Extension") ∧
    (Ext path ≠ "" →
      extensionKey path = Ext path ∧ (extensionKey path).data.head? = some '.' ∧
        extensionKey path ≠ "No Extension") ∧
    (Ext path = "" → extensionKey path = "No Extension") := by
  refine ⟨?_, ?_, ?_, ?_⟩
  · intro pre suf hpath hdot hsep
    have h := Ext_of_final_dot path pre suf hpath hdot hsep
    unfold extensionKey
    simp only [h, if_neg (mk_cons_ne_empty _ _)]
  · intro hall
    rcases Ext_empty_or_dot path with h | ⟨suf, pre, hpath, hdot, hsep, _⟩
    · simp [extensionKey, h]
    · exact absurd (hall pre suf hpath) hsep
  · intro hne
    rcases Ext_empty_or_dot path with h | ⟨suf, pre, hpath, hdot, hsep, h⟩
    · exact absurd h hne
    · have hk : extensionKey path = Ext path := by
        unfold extensionKey
        simp only [if_neg hne]
      refine ⟨hk, ?_, ?_⟩
      · rw [hk, h]
        rfl
      · rw [hk, h]
        intro hbad
        have := congrArg String.data hbad
        revert this
        simp
  · intro h
    simp [extensionKey, h]

/-- Witness of C10: the path `src/Main.GO` has the key `.GO`. -/
theorem extension_key_spec_witness : extensionKey "src/Main.GO" = ".GO" :=
  (extension_key_spec "src/Main.GO").1 "src/Main".data "GO".data rfl (by decide) (by decide)

/-- C10 fails as stated: the key of `src/Main.GO` is `.GO`, with the dot, and
not `GO`; and `a.b/c`, whose final element has no dot, is in the bucket
"No Extension" and not under the text after its final dot. -/
theorem extension_key_keeps_dot :
    extensionKey "src/Main.GO" = ".GO" ∧ extensionKey "src/Main.GO" ≠ "GO" ∧
      extensionKey "a.b/c" = "No Extension" ∧ extensionKey "a.b/c" ≠ "b/c" := by
  decide

/-! ## The map of extension totals -/

theorem mapFind_mapSet (m : ExtensionMap) (key : String) (value : ExtensionTotals)
    (k : String) :
    mapFind (mapSet m key value) k = if key = k then some value else mapFind m k := by
  induction m with
  | nil => simp [mapSet, mapFind]
  | cons e m ih =>
    obtain ⟨k', v'⟩ := e
    by_cases h1 : k' = key
    · subst h1
      by_cases h2 : k' = k
      · simp [mapSet, mapFind, h2]
      · simp [mapSet, mapFind, h2]
    · by_cases h2 : key = k
      · subst h2
        simp [mapSet, mapFind, h1, ih]
      · by_cases h3 : k' = k
        · subst h3
          simp [mapSet, mapFind, h1, h2]
        · simp [mapSet, mapFind, h1, h2, h3, ih]

theorem keys_mapSet (m : ExtensionMap) (key : String) (value : ExtensionTotals) :
    (mapSet m key value).map Prod.fst =
      if key ∈ m.map Prod.fst then m.map Prod.fst else m.map Prod.fst ++ [key] := by
  induction m with
  | nil => simp [mapSet]
  | cons e m ih =>
    obtain ⟨k', v'⟩ := e
    by_cases h1 : k' = key
    · simp [mapSet, h1]
    · have h1' : ¬ key = k' := fun h => h1 h.symm
      by_cases h2 : key ∈ m.map Prod.fst
      · simp only [mapSet, if_neg h1, List.map_cons, ih, if_pos h2]
        simp [h2]
      · simp only [mapSet, if_neg h1, List.map_cons, ih, if_neg h2]
        simp [h1', h2]

theorem sumSize_mapSet (m : ExtensionMap) (key : String) (value : ExtensionTotals) :
    sumSize (mapSet m key value) = sumSize m - (mapGet m key).size + value.size := by
  induction m with
  | nil => simp [mapSet, sumSize, mapGet, mapFind]
  | cons e m ih =>
    obtain ⟨k', v'⟩ := e
    by_cases h1 : k' = key
    · simp [mapSet, sumSize, mapGet, mapFind, h1]
      ring
    · simp only [sumSize, mapGet] at ih
      simp [mapSet, sumSize, mapGet, mapFind, h1, ih]
      ring

theorem sumFiles_mapSet (m : ExtensionMap) (key : String) (value : ExtensionTotals) :
    sumFiles (mapSet m key value) = sumFiles m - (mapGet m key).filesCount + value.filesCount := by
  induction m with
  | nil => simp [mapSet, sumFiles, mapGet, mapFind]
  | cons e m ih =>
    obtain ⟨k', v'⟩ := e
    by_cases h1 : k' = key
    · simp [mapSet, sumFiles, mapGet, mapFind, h1]
      ring
    · simp only [sumFiles, mapGet] at ih
      simp [mapSet, sumFiles, mapGet, mapFind, h1, ih]
      ring

theorem sumBlobs_mapSet (m : ExtensionMap) (key : String) (value : ExtensionTotals) :
    sumBlobs (mapSet m key value) = sumBlobs m - (mapGet m key).blobsCount + value.blobsCount := by
  induction m with
  | nil => simp [mapSet, sumBlobs, mapGet, mapFind]
  | cons e m ih =>
    obtain ⟨k', v'⟩ := e
    by_cases h1 : k' = key
    · simp [mapSet, sumBlobs, mapGet, mapFind, h1]
      ring
    · simp only [sumBlobs, mapGet] at ih
      simp [mapSet, sumBlobs, mapGet, mapFind, h1, ih]
      ring

/-! ## The loops that add up -/

theorem fitsInt_zero : fitsInt 0 := by
  unfold fitsInt
  omega

theorem wrapInt_step (a b c : Int) : wrapInt (wrapInt (a + b) + c) = wrapInt (a + (b + c)) := by
  unfold wrapInt
  omega

theorem largestFiles_fold (totalFilesSize totalBlobs : Int) :
    ∀ (files : List FileInformation) (state : LargestFilesLoop),
      fitsInt state.totalSelectedBlobs → fitsInt state.totalSelectedSize →
      (files.foldl (largestFilesStep totalFilesSize totalBlobs) state).totalSelectedBlobs
          = wrapInt (state.totalSelectedBlobs + (files.map (fun f => f.Blobs)).sum) ∧
        (files.foldl (largestFilesStep totalFilesSize totalBlobs) state).totalSelectedSize
          = wrapInt (state.totalSelectedSize + (files.map (fun f => f.CompressedSize)).sum) ∧
        (files.foldl (largestFilesStep totalFilesSize totalBlobs) state).rows
          = state.rows ++ files.map (fun f =>
              { path := f.Path
                blobs := f.Blobs
                percentageBlobs := percentOf f.Blobs totalBlobs
                compressedSize := f.CompressedSize
                percentageSize := percentOf f.CompressedSize totalFilesSize }) := by
  intro files
  induction files with
  | nil =>
    intro state hb hs
    simp [wrapInt_of_fits hb, wrapInt_of_fits hs]
  | cons f files ih =>
    intro state hb hs
    obtain ⟨h1, h2, h3⟩ := ih (largestFilesStep totalFilesSize totalBlobs state f)
      (fitsInt_wrapInt _) (fitsInt_wrapInt _)
    simp only [List.foldl_cons, List.map_cons, List.sum_cons]
    refine ⟨?_, ?_, ?_⟩
    · rw [h1]
      exact wrapInt_step _ _ _
    · rw [h2]
      exact wrapInt_step _ _ _
    · rw [h3]
      simp [largestFilesStep]

theorem totalsOfMap_fold :
    ∀ (m : ExtensionMap) (sums : ExtensionSums),
      fitsInt sums.filesCount → fitsInt sums.blobsCount → fitsInt sums.size →
      m.foldl
          (fun sums entry =>
            ({ filesCount := wrapInt (sums.filesCount + entry.2.filesCount)
               blobsCount := wrapInt (sums.blobsCount + entry.2.blobsCount)
               size := wrapInt (sums.size + entry.2.size) } : ExtensionSums))
          sums
        = { filesCount := wrapInt (sums.filesCount + sumFiles m)
            blobsCount := wrapInt (sums.blobsCount + sumBlobs m)
            size := wrapInt (sums.size + sumSize m) } := by
  intro m
  induction m with
  | nil =>
    intro sums h1 h2 h3
    simp [sumFiles, sumBlobs, sumSize, wrapInt_of_fits h1, wrapInt_of_fits h2, wrapInt_of_fits h3]
  | cons e m ih =>
    intro sums h1 h2 h3
    rw [List.foldl_cons, ih _ (fitsInt_wrapInt _) (fitsInt_wrapInt _) (fitsInt_wrapInt _)]
    simp only [sumFiles, sumBlobs, sumSize, List.map_cons, List.sum_cons, wrapInt_step]

theorem totalsOfMap_eq (m : ExtensionMap) :
    totalsOfMap m =
      { filesCount := wrapInt (sumFiles m)
        blobsCount := wrapInt (sumBlobs m)
        size := wrapInt (sumSize m) } := by
  unfold totalsOfMap
  rw [totalsOfMap_fold m ⟨0, 0, 0⟩ fitsInt_zero fitsInt_zero fitsInt_zero]
  simp

theorem extension_fold (totalExtFilesCount totalBlobs totalSize : Int) :
    ∀ (statistics : List extensionStatistic) (state : ExtensionLoop),
      fitsInt state.selectedFilesCount → fitsInt state.selectedBlobsCount →
      fitsInt state.selectedSize →
      (statistics.foldl (extensionStep totalExtFilesCount totalBlobs totalSize)
          state).selectedFilesCount
          = wrapInt (state.selectedFilesCount + (statistics.map (fun g => g.filesCount)).sum) ∧
        (statistics.foldl (extensionStep totalExtFilesCount totalBlobs totalSize)
          state).selectedBlobsCount
          = wrapInt (state.selectedBlobsCount + (statistics.map (fun g => g.blobsCount)).sum) ∧
        (statistics.foldl (extensionStep totalExtFilesCount totalBlobs totalSize)
          state).selectedSize
          = wrapInt (state.selectedSize + (statistics.map (fun g => g.size)).sum) ∧
        (statistics.foldl (extensionStep totalExtFilesCount totalBlobs totalSize) state).rows
          = state.rows ++ statistics.map (fun g =>
              { extension := g.extension
                filesCount := g.filesCount
                percentageFiles := percentOf g.filesCount totalExtFilesCount
                blobsCount := g.blobsCount
                percentageBlobs := percentOf g.blobsCount totalBlobs
                size := g.size
                percentageSize := percentOf g.size totalSize }) := by
  intro statistics
  induction statistics with
  | nil =>
    intro state h1 h2 h3
    simp [wrapInt_of_fits h1, wrapInt_of_fits h2, wrapInt_of_fits h3]
  | cons g statistics ih =>
    intro state h1 h2 h3
    obtain ⟨k1, k2, k3, k4⟩ := ih (extensionStep totalExtFilesCount totalBlobs totalSize state g)
      (fitsInt_wrapInt _) (fitsInt_wrapInt _) (fitsInt_wrapInt _)
    simp only [List.foldl_cons, List.map_cons, List.sum_cons]
    refine ⟨?_, ?_, ?_, ?_⟩
    · rw [k1]
      exact wrapInt_step _ _ _
    · rw [k2]
      exact wrapInt_step _ _ _
    · rw [k3]
      exact wrapInt_step _ _ _
    · rw [k4]
      simp [extensionStep]

/-! ## The grouping loop -/

theorem wrapInt_replace (total old new rest : Int) :
    wrapInt (total - old + wrapInt (old + new) + rest) = wrapInt (total + (new + rest)) := by
  unfold wrapInt
  omega

theorem group_sums_wrap :
    ∀ (blobs : List FileInformation) (m : ExtensionMap),
      wrapInt (sumSize (blobs.foldl groupStep m))
          = wrapInt (sumSize m + (blobs.map (fun f => f.CompressedSize)).sum) ∧
        wrapInt (sumFiles (blobs.foldl groupStep m))
          = wrapInt (sumFiles m + (blobs.length : Int)) ∧
        wrapInt (sumBlobs (blobs.foldl groupStep m))
          = wrapInt (sumBlobs m + (blobs.map (fun f => f.Blobs)).sum) := by
  intro blobs
  induction blobs with
  | nil =>
    intro m
    simp
  | cons f blobs ih =>
    intro m
    obtain ⟨h1, h2, h3⟩ := ih (groupStep m f)
    simp only [List.foldl_cons, List.map_cons, List.sum_cons, List.length_cons, Nat.cast_add,
      Nat.cast_one]
    refine ⟨?_, ?_, ?_⟩
    · rw [h1]
      simp only [groupStep, sumSize_mapSet]
      exact wrapInt_replace _ _ _ _
    · rw [h2]
      simp only [groupStep, sumFiles_mapSet]
      rw [wrapInt_replace, add_comm (1 : Int)]
    · rw [h3]
      simp only [groupStep, sumBlobs_mapSet]
      exact wrapInt_replace _ _ _ _

theorem group_totals (blobs : List FileInformation) :
    totalsOfMap (groupByExtension blobs) =
      { filesCount := wrapInt (blobs.length : Int)
        blobsCount := wrapInt ((blobs.map (fun f => f.Blobs)).sum)
        size := wrapInt ((blobs.map (fun f => f.CompressedSize)).sum) } := by
  obtain ⟨h1, h2, h3⟩ := group_sums_wrap blobs []
  rw [totalsOfMap_eq]
  unfold groupByExtension
  rw [h1, h2, h3]
  simp [sumSize, sumFiles, sumBlobs]

theorem keys_groupStep (m : ExtensionMap) (f : FileInformation) :
    (groupStep m f).map Prod.fst =
      if extensionKey f.Path ∈ m.map Prod.fst then m.map Prod.fst
      else m.map Prod.fst ++ [extensionKey f.Path] := by
  simp only [groupStep, keys_mapSet]

theorem group_keys :
    ∀ (blobs : List FileInformation) (m : ExtensionMap), (m.map Prod.fst).Nodup →
      ((blobs.foldl groupStep m).map Prod.fst).Nodup ∧
        ∀ k, k ∈ (blobs.foldl groupStep m).map Prod.fst ↔
          k ∈ m.map Prod.fst ∨ k ∈ blobs.map (fun f => extensionKey f.Path) := by
  intro blobs
  induction blobs with
  | nil =>
    intro m hm
    simp [hm]
  | cons f blobs ih =>
    intro m hm
    have hstep : ((groupStep m f).map Prod.fst).Nodup := by
      rw [keys_groupStep]
      split
      · exact hm
      · rename_i hnot
        rw [List.nodup_append]
        refine ⟨hm, List.nodup_singleton _, ?_⟩
        intro a ha hb
        rw [List.mem_singleton] at hb
        exact hnot (hb ▸ ha)
    obtain ⟨h1, h2⟩ := ih (groupStep m f) hstep
    refine ⟨h1, ?_⟩
    intro k
    rw [List.foldl_cons, h2 k, keys_groupStep]
    split
    · rename_i hin
      simp only [List.map_cons, List.mem_cons]
      constructor
      · rintro (h | h)
        · exact Or.inl h
        · exact Or.inr (Or.inr h)
      · rintro (h | h | h)
        · exact Or.inl h
        · exact Or.inl (h ▸ hin)
        · exact Or.inr h
    · simp only [List.map_cons, List.mem_cons, List.mem_append, List.mem_singleton]
      tauto

theorem group_length (blobs : List FileInformation) :
    (groupByExtension blobs).length
      = ((blobs.map (fun f => extensionKey f.Path)).dedup).length := by
  obtain ⟨hnd, hmem⟩ := group_keys blobs [] List.nodup_nil
  unfold groupByExtension
  rw [← List.card_toFinset, ← List.length_map (blobs.foldl groupStep []) Prod.fst,
    ← List.toFinset_card_of_nodup hnd]
  congr 1
  ext k
  simp only [List.mem_toFinset]
  rw [hmem k]
  simp

theorem mapGet_bounds (m : ExtensionMap) (hm : nonnegMap m) (key : String) :
    (0 ≤ (mapGet m key).size ∧ (mapGet m key).size ≤ sumSize m) ∧
    (0 ≤ (mapGet m key).filesCount ∧ (mapGet m key).filesCount ≤ sumFiles m) ∧
    (0 ≤ (mapGet m key).blobsCount ∧ (mapGet m key).blobsCount ≤ sumBlobs m) := by
  induction m with
  | nil => simp [mapGet, mapFind, sumSize, sumFiles, sumBlobs]
  | cons e m ih =>
    obtain ⟨k', v'⟩ := e
    have he := hm (k', v') (List.mem_cons_self _ _)
    have hm' : nonnegMap m := fun e h => hm e (List.mem_cons_of_mem _ h)
    have ih' := ih hm'
    simp only [mapGet, sumSize, sumFiles, sumBlobs] at ih' ⊢
    simp only [mapFind, List.map_cons, List.sum_cons]
    simp only at he
    by_cases h1 : k' = key
    · simp only [if_pos h1, Option.getD_some]
      omega
    · simp only [if_neg h1]
      omega

theorem nonnegMap_mapSet (m : ExtensionMap) (hm : nonnegMap m) (key : String)
    (value : ExtensionTotals)
    (hv : 0 ≤ value.size ∧ 0 ≤ value.filesCount ∧ 0 ≤ value.blobsCount) :
    nonnegMap (mapSet m key value) := by
  induction m with
  | nil =>
    intro e he
    simp only [mapSet, List.mem_singleton] at he
    rw [he]
    exact hv
  | cons e m ih =>
    obtain ⟨k', v'⟩ := e
    have hm' : nonnegMap m := fun e h => hm e (List.mem_cons_of_mem _ h)
    intro e he
    simp only [mapSet] at he
    split at he
    · rcases List.mem_cons.1 he with h | h
      · rw [h]
        exact hv
      · exact hm' e h
    · rcases List.mem_cons.1 he with h | h
      · rw [h]
        exact hm (k', v') (List.mem_cons_self _ _)
      · exact ih hm' e h

theorem group_exact :
    ∀ (blobs : List FileInformation) (m : ExtensionMap), nonnegMap m →
      (∀ f ∈ blobs, 0 ≤ f.Blobs ∧ 0 ≤ f.CompressedSize) →
      sumSize m + (blobs.map (fun f => f.CompressedSize)).sum < 9223372036854775808 →
      sumFiles m + (blobs.length : Int) < 9223372036854775808 →
      sumBlobs m + (blobs.map (fun f => f.Blobs)).sum < 9223372036854775808 →
      nonnegMap (blobs.foldl groupStep m) ∧
        sumSize (blobs.foldl groupStep m)
          = sumSize m + (blobs.map (fun f => f.CompressedSize)).sum ∧
        sumFiles (blobs.foldl groupStep m) = sumFiles m + (blobs.length : Int) ∧
        sumBlobs (blobs.foldl groupStep m) = sumBlobs m + (blobs.map (fun f => f.Blobs)).sum := by
  intro blobs
  induction blobs with
  | nil =>
    intro m hm _ _ _ _
    simp [hm]
  | cons f blobs ih =>
    intro m hm hf h1 h2 h3
    have hf0 := hf f (List.mem_cons_self _ _)
    have hrest : ∀ g ∈ blobs, 0 ≤ g.Blobs ∧ 0 ≤ g.CompressedSize :=
      fun g hg => hf g (List.mem_cons_of_mem _ hg)
    have hs0 : 0 ≤ (blobs.map (fun f => f.CompressedSize)).sum :=
      List.sum_nonneg (by
        intro x hx
        obtain ⟨g, hg, rfl⟩ := List.mem_map.1 hx
        exact (hrest g hg).2)
    have hb0 : 0 ≤ (blobs.map (fun f => f.Blobs)).sum :=
      List.sum_nonneg (by
        intro x hx
        obtain ⟨g, hg, rfl⟩ := List.mem_map.1 hx
        exact (hrest g hg).1)
    have hl0 : (0 : Int) ≤ (blobs.length : Int) := Int.ofNat_nonneg _
    obtain ⟨⟨g1, g2⟩, ⟨g3, g4⟩, ⟨g5, g6⟩⟩ := mapGet_bounds m hm (extensionKey f.Path)
    simp only [List.map_cons, List.sum_cons, List.length_cons, Nat.cast_add, Nat.cast_one]
      at h1 h2 h3
    have e1 : wrapInt ((mapGet m (extensionKey f.Path)).size + f.CompressedSize)
        = (mapGet m (extensionKey f.Path)).size + f.CompressedSize :=
      wrapInt_of_fits (by unfold fitsInt; omega)
    have e2 : wrapInt ((mapGet m (extensionKey f.Path)).filesCount + 1)
        = (mapGet m (extensionKey f.Path)).filesCount + 1 :=
      wrapInt_of_fits (by unfold fitsInt; omega)
    have e3 : wrapInt ((mapGet m (extensionKey f.Path)).blobsCount + f.Blobs)
        = (mapGet m (extensionKey f.Path)).blobsCount + f.Blobs :=
      wrapInt_of_fits (by unfold fitsInt; omega)
    have hstep : nonnegMap (groupStep m f) := by
      unfold groupStep
      apply nonnegMap_mapSet m hm
      simp only [e1, e2, e3]
      omega
    have s1 : sumSize (groupStep m f) = sumSize m + f.CompressedSize := by
      simp only [groupStep, sumSize_mapSet, e1]
      ring
    have s2 : sumFiles (groupStep m f) = sumFiles m + 1 := by
      simp only [groupStep, sumFiles_mapSet, e2]
      ring
    have s3 : sumBlobs (groupStep m f) = sumBlobs m + f.Blobs := by
      simp only [groupStep, sumBlobs_mapSet, e3]
      ring
    obtain ⟨k0, k1, k2, k3⟩ := ih (groupStep m f) hstep hrest (by rw [s1]; omega)
      (by rw [s2]; omega) (by rw [s3]; omega)
    simp only [List.foldl_cons, List.map_cons, List.sum_cons, List.length_cons, Nat.cast_add,
      Nat.cast_one]
    refine ⟨k0, ?_, ?_, ?_⟩
    · rw [k1, s1]
      ring
    · rw [k2, s2]
      ring
    · rw [k3, s3]
      ring

theorem group_exact_valid (blobs : List FileInformation) (hv : validFiles blobs) :
    nonnegMap (groupByExtension blobs) ∧
      sumSize (groupByExtension blobs) = (blobs.map (fun f => f.CompressedSize)).sum ∧
      sumFiles (groupByExtension blobs) = (blobs.length : Int) ∧
      sumBlobs (groupByExtension blobs) = (blobs.map (fun f => f.Blobs)).sum := by
  obtain ⟨h1, h2, h3, h4⟩ := hv
  have hnil : nonnegMap [] := by
    intro e he
    simp at he
  have := group_exact blobs [] hnil h1 (by simpa [sumSize] using h3)
    (by simpa [sumFiles] using h4) (by simpa [sumBlobs] using h2)
  simpa [groupByExtension, sumSize, sumFiles, sumBlobs] using this

/-! ## The sorted slice -/

theorem sorted_perm {blobs : List FileInformation} {sorted : List extensionStatistic}
    (h : IsSortedStatistics blobs sorted) :
    sorted.Perm ((groupByExtension blobs).map toStatistic) ∧
      sorted.Pairwise (fun earlier later => later.size ≤ earlier.size) := by
  obtain ⟨ranged, hr, hp, hs⟩ := h
  refine ⟨hp.trans hr, ?_⟩
  refine hs.imp ?_
  intro a b hab
  simpa [sizeLess] using hab

theorem limitTop_eq_take (statistics : List extensionStatistic) :
    limitTop statistics = statistics.take 10 := by
  unfold limitTop
  split
  · rfl
  · rw [List.take_of_length_le (by omega)]

theorem sortBySize_sorted (blobs : List FileInformation) :
    IsSortedStatistics blobs (sortBySize ((groupByExtension blobs).map toStatistic)) := by
  refine ⟨(groupByExtension blobs).map toStatistic, List.Perm.refl _, ?_, ?_⟩
  · exact List.perm_insertionSort _ _
  · have hsorted : List.Sorted (fun a b : extensionStatistic => a.size ≥ b.size)
        (sortBySize ((groupByExtension blobs).map toStatistic)) := by
      haveI : IsTotal extensionStatistic (fun a b => a.size ≥ b.size) :=
        ⟨fun a b => le_total b.size a.size⟩
      haveI : IsTrans extensionStatistic (fun a b => a.size ≥ b.size) :=
        ⟨fun a b c hab hbc => le_trans hbc hab⟩
      exact List.sorted_insertionSort _ _
    refine List.Pairwise.imp ?_ hsorted
    intro a b hab
    simpa [sizeLess] using hab

theorem runTopFileExtensions_possible (blobs : List FileInformation) (totalBlobs totalSize : Int) :
    PrintTopFileExtensions blobs totalBlobs totalSize
      (runTopFileExtensions blobs totalBlobs totalSize) :=
  ⟨_, sortBySize_sorted blobs, rfl⟩

theorem sums_of_statistics (m : ExtensionMap) :
    ((m.map toStatistic).map (fun g => g.filesCount)).sum = sumFiles m ∧
      ((m.map toStatistic).map (fun g => g.blobsCount)).sum = sumBlobs m ∧
      ((m.map toStatistic).map (fun g => g.size)).sum = sumSize m := by
  simp [sumFiles, sumBlobs, sumSize, toStatistic, Function.comp_def]

theorem sums_of_sorted {blobs : List FileInformation} {sorted : List extensionStatistic}
    (h : IsSortedStatistics blobs sorted) :
    (sorted.map (fun g => g.filesCount)).sum = sumFiles (groupByExtension blobs) ∧
      (sorted.map (fun g => g.blobsCount)).sum = sumBlobs (groupByExtension blobs) ∧
      (sorted.map (fun g => g.size)).sum = sumSize (groupByExtension blobs) := by
  have hp := (sorted_perm h).1
  obtain ⟨h1, h2, h3⟩ := sums_of_statistics (groupByExtension blobs)
  exact ⟨((hp.map _).sum_eq).trans h1, ((hp.map _).sum_eq).trans h2, ((hp.map _).sum_eq).trans h3⟩

theorem report_fields (m : ExtensionMap) (sorted : List extensionStatistic)
    (totalBlobs totalSize : Int) :
    (reportOfSorted m sorted totalBlobs totalSize).selectedFilesCount
        = wrapInt (((sorted.take 10).map (fun g => g.filesCount)).sum) ∧
      (reportOfSorted m sorted totalBlobs totalSize).selectedBlobsCount
        = wrapInt (((sorted.take 10).map (fun g => g.blobsCount)).sum) ∧
      (reportOfSorted m sorted totalBlobs totalSize).selectedSize
        = wrapInt (((sorted.take 10).map (fun g => g.size)).sum) ∧
      (reportOfSorted m sorted totalBlobs totalSize).rows
        = (sorted.take 10).map (fun g =>
            { extension := g.extension
              filesCount := g.filesCount
              percentageFiles := percentOf g.filesCount (totalsOfMap m).filesCount
              blobsCount := g.blobsCount
              percentageBlobs := percentOf g.blobsCount totalBlobs
              size := g.size
              percentageSize := percentOf g.size totalSize }) := by
  obtain ⟨h1, h2, h3, h4⟩ := extension_fold (totalsOfMap m).filesCount totalBlobs totalSize
    (sorted.take 10) ⟨[], 0, 0, 0⟩ fitsInt_zero fitsInt_zero fitsInt_zero
  simp only [reportOfSorted, limitTop_eq_take]
  refine ⟨?_, ?_, ?_, ?_⟩
  · rw [h1]; simp
  · rw [h2]; simp
  · rw [h3]; simp
  · rw [h4]; simp

/-! ## The rollup rows -/

/-- C4: the "Out of" row of `PrintTopFileExtensions` shows the totals of the
whole input, each at 100: as files count the number of input records, as
blobs count and size the sums of `Blobs` and of `CompressedSize` over the whole
input (when these fit a 64-bit integer), and as count of groups the number of
distinct extension keys; this for every input, the empty one and those of more
than 10 groups alike, and every input has a report.  The "Out of" row of
`PrintLargestFiles` shows `totalBlobs` and `totalFilesSize`, each at 100. -/
theorem grand_total_row (blobs : List FileInformation) (totalBlobs totalSize : Int)
    (report : ExtensionReport)
    (hrun : PrintTopFileExtensions blobs totalBlobs totalSize report)
    (hlen : (blobs.length : Int) < 9223372036854775808)
    (hblobs : fitsInt ((blobs.map (fun f => f.Blobs)).sum))
    (hsize : fitsInt ((blobs.map (fun f => f.CompressedSize)).sum))
    (files : List FileInformation) (totalFilesSize totalFileBlobs totalFiles : Int) :
    (report.totalExtFilesCount = (blobs.length : Int) ∧
      report.totalExtBlobsCount = (blobs.map (fun f => f.Blobs)).sum ∧
      report.totalExtSize = (blobs.map (fun f => f.CompressedSize)).sum ∧
      report.outOf = (((blobs.map (fun f => extensionKey f.Path)).dedup).length : Int) ∧
      report.totalFilesPercentage = Float64.finite 100 ∧
      report.totalBlobsPercentage = Float64.finite 100 ∧
      report.totalSizePercentage = Float64.finite 100) ∧
    ((PrintLargestFiles files totalFilesSize totalFileBlobs totalFiles).totalBlobs
        = totalFileBlobs ∧
      (PrintLargestFiles files totalFilesSize totalFileBlobs totalFiles).totalBlobsPercentage
        = Float64.finite 100 ∧
      (PrintLargestFiles files totalFilesSize totalFileBlobs totalFiles).totalFilesSize
        = totalFilesSize ∧
      (PrintLargestFiles files totalFilesSize totalFileBlobs totalFiles).totalSizePercentage
        = Float64.finite 100 ∧
      (PrintLargestFiles files totalFilesSize totalFileBlobs totalFiles).outOf = totalFiles) ∧
    (∃ r, PrintTopFileExtensions blobs totalBlobs totalSize r) := by
  obtain ⟨sorted, _, hreport⟩ := hrun
  have htot := group_totals blobs
  have hl : fitsInt (blobs.length : Int) := by
    unfold fitsInt
    omega
  refine ⟨?_, ⟨rfl, rfl, rfl, rfl, rfl⟩, ⟨_, runTopFileExtensions_possible blobs totalBlobs totalSize⟩⟩
  subst hreport
  simp only [reportOfSorted, htot, wrapInt_of_fits hl, wrapInt_of_fits hblobs,
    wrapInt_of_fits hsize, group_length, and_self, and_true, true_and]

/-- Witness of C4: three files in two groups. -/
theorem grand_total_row_witness :
    (runTopFileExtensions [⟨"a.go", 10, 100⟩, ⟨"b.go", 5, 50⟩, ⟨"Makefile", 1, 10⟩] 16
        160).totalExtBlobsCount
      = ([⟨"a.go", 10, 100⟩, ⟨"b.go", 5, 50⟩, ⟨"Makefile", 1, 10⟩].map
          (fun f : FileInformation => f.Blobs)).sum :=
  (grand_total_row [⟨"a.go", 10, 100⟩, ⟨"b.go", 5, 50⟩, ⟨"Makefile", 1, 10⟩] 16 160 _
    (runTopFileExtensions_possible _ 16 160) (by decide) (by decide) (by decide) [] 0 0 0).1.2.1

theorem take_sum_bounds (l : List Int) (hl : ∀ x ∈ l, 0 ≤ x) (n : Nat) :
    0 ≤ (l.take n).sum ∧ (l.take n).sum ≤ l.sum := by
  have h1 : 0 ≤ (l.take n).sum := List.sum_nonneg (fun x hx => hl x (List.mem_of_mem_take hx))
  have h2 : 0 ≤ (l.drop n).sum := List.sum_nonneg (fun x hx => hl x (List.mem_of_mem_drop hx))
  have h3 := List.sum_take_add_sum_drop l n
  exact ⟨h1, by omega⟩

theorem sorted_nonneg {blobs : List FileInformation} {sorted : List extensionStatistic}
    (h : IsSortedStatistics blobs sorted) (hv : validFiles blobs) :
    ∀ g ∈ sorted, 0 ≤ g.size ∧ 0 ≤ g.filesCount ∧ 0 ≤ g.blobsCount := by
  intro g hg
  have hmem := (sorted_perm h).1.mem_iff.1 hg
  obtain ⟨e, he, rfl⟩ := List.mem_map.1 hmem
  exact (group_exact_valid blobs hv).1 e he

theorem selected_exact {blobs : List FileInformation} {sorted : List extensionStatistic}
    (h : IsSortedStatistics blobs sorted) (hv : validFiles blobs) :
    fitsInt (((sorted.take 10).map (fun g => g.filesCount)).sum) ∧
      fitsInt (((sorted.take 10).map (fun g => g.blobsCount)).sum) ∧
      fitsInt (((sorted.take 10).map (fun g => g.size)).sum) := by
  have hnn := sorted_nonneg h hv
  obtain ⟨s1, s2, s3⟩ := sums_of_sorted h
  obtain ⟨_, e1, e2, e3⟩ := group_exact_valid blobs hv
  obtain ⟨_, v2, v3, v4⟩ := hv
  have b1 := take_sum_bounds (sorted.map (fun g => g.filesCount)) (by
    intro x hx
    obtain ⟨g, hg, rfl⟩ := List.mem_map.1 hx
    exact (hnn g hg).2.1) 10
  have b2 := take_sum_bounds (sorted.map (fun g => g.blobsCount)) (by
    intro x hx
    obtain ⟨g, hg, rfl⟩ := List.mem_map.1 hx
    exact (hnn g hg).2.2) 10
  have b3 := take_sum_bounds (sorted.map (fun g => g.size)) (by
    intro x hx
    obtain ⟨g, hg, rfl⟩ := List.mem_map.1 hx
    exact (hnn g hg).1) 10
  rw [← List.map_take] at b1 b2 b3
  unfold fitsInt
  refine ⟨?_, ?_, ?_⟩ <;> omega

/-- C3, as the code has it: the "Top" row shows, for each metric, the sum over
the displayed set and that sum as a percentage of the total of the full
population, the percentage being the binary64 value of
`float64(sum) / float64(total) * 100`: a finite number within the relative
error `2^-50` of the exact `sum / total * 100`.  In `PrintLargestFiles`, with
non-zero `totalBlobs` and `totalFilesSize` (64-bit values, sums that fit), the
row shows the number of displayed files, the sum of their `Blobs` and the sum
of their `CompressedSize`, each with such a percentage.  In
`PrintTopFileExtensions` the displayed lines are the first ten at most of a
rearrangement of all groups, and the row shows the sums of the files, blobs
and size counts of the displayed lines, each with such a percentage of the sum
over all groups (when that is not zero).  Files A(10, 100) and B(5, 50)
displayed against totals 16 and 160 give blobs 15 and size 150, both at
exactly 93.75. -/
theorem top_row_sums (files : List FileInformation) (totalFilesSize totalFileBlobs totalFiles : Int)
    (hb : totalFileBlobs ≠ 0) (hs : totalFilesSize ≠ 0)
    (hbfit : fitsInt totalFileBlobs) (hsfit : fitsInt totalFilesSize)
    (hfb : fitsInt ((files.map (fun f => f.Blobs)).sum))
    (hfs : fitsInt ((files.map (fun f => f.CompressedSize)).sum))
    (blobs : List FileInformation) (totalBlobs totalSize : Int) (report : ExtensionReport)
    (hrun : PrintTopFileExtensions blobs totalBlobs totalSize report)
    (hv : validFiles blobs) :
    ((PrintLargestFiles files totalFilesSize totalFileBlobs totalFiles).topCount
        = (files.length : Int) ∧
      (PrintLargestFiles files totalFilesSize totalFileBlobs totalFiles).totalSelectedBlobs
        = (files.map (fun f => f.Blobs)).sum ∧
      (PrintLargestFiles files totalFilesSize totalFileBlobs
          totalFiles).selectedBlobsPercentage.approximates
        ((((files.map (fun f => f.Blobs)).sum : Int) : ℚ) / (totalFileBlobs : ℚ) * 100) ∧
      (PrintLargestFiles files totalFilesSize totalFileBlobs totalFiles).totalSelectedSize
        = (files.map (fun f => f.CompressedSize)).sum ∧
      (PrintLargestFiles files totalFilesSize totalFileBlobs
          totalFiles).selectedSizePercentage.approximates
        ((((files.map (fun f => f.CompressedSize)).sum : Int) : ℚ) /
          (totalFilesSize : ℚ) * 100)) ∧
    ((∃ sorted : List extensionStatistic,
        sorted.Perm ((groupByExtension blobs).map toStatistic) ∧
        report.rows.map ExtensionRow.statistic = sorted.take 10) ∧
      report.rows.length ≤ 10 ∧
      report.topCount = (report.rows.length : Int) ∧
      report.selectedFilesCount = (report.rows.map (fun r => r.filesCount)).sum ∧
      report.selectedBlobsCount = (report.rows.map (fun r => r.blobsCount)).sum ∧
      report.selectedSize = (report.rows.map (fun r => r.size)).sum ∧
      report.totalExtFilesCount
        = (((groupByExtension blobs).map toStatistic).map (fun g => g.filesCount)).sum ∧
      report.totalExtBlobsCount
        = (((groupByExtension blobs).map toStatistic).map (fun g => g.blobsCount)).sum ∧
      report.totalExtSize
        = (((groupByExtension blobs).map toStatistic).map (fun g => g.size)).sum ∧
      (report.totalExtFilesCount ≠ 0 →
        report.selectedFilesPercentage.approximates
          ((((report.rows.map (fun r => r.filesCount)).sum : Int) : ℚ) /
            (report.totalExtFilesCount : ℚ) * 100)) ∧
      (report.totalExtBlobsCount ≠ 0 →
        report.selectedBlobsPercentage.approximates
          ((((report.rows.map (fun r => r.blobsCount)).sum : Int) : ℚ) /
            (report.totalExtBlobsCount : ℚ) * 100)) ∧
      (report.totalExtSize ≠ 0 →
        report.selectedSizePercentage.approximates
          ((((report.rows.map (fun r => r.size)).sum : Int) : ℚ) /
            (report.totalExtSize : ℚ) * 100))) ∧
    ((PrintLargestFiles [⟨"A", 10, 100⟩, ⟨"B", 5, 50⟩] 160 16 3).topCount = 2 ∧
      (PrintLargestFiles [⟨"A", 10, 100⟩, ⟨"B", 5, 50⟩] 160 16 3).totalSelectedBlobs = 15 ∧
      (PrintLargestFiles [⟨"A", 10, 100⟩, ⟨"B", 5, 50⟩] 160 16 3).selectedBlobsPercentage
        = Float64.finite (9375 / 100) ∧
      (PrintLargestFiles [⟨"A", 10, 100⟩, ⟨"B", 5, 50⟩] 160 16 3).totalSelectedSize = 150 ∧
      (PrintLargestFiles [⟨"A", 10, 100⟩, ⟨"B", 5, 50⟩] 160 16 3).selectedSizePercentage
        = Float64.finite (9375 / 100)) := by
  have hlargest : (PrintLargestFiles files totalFilesSize totalFileBlobs totalFiles).topCount
        = (files.length : Int) ∧
      (PrintLargestFiles files totalFilesSize totalFileBlobs totalFiles).totalSelectedBlobs
        = (files.map (fun f => f.Blobs)).sum ∧
      (PrintLargestFiles files totalFilesSize totalFileBlobs
          totalFiles).selectedBlobsPercentage.approximates
        ((((files.map (fun f => f.Blobs)).sum : Int) : ℚ) / (totalFileBlobs : ℚ) * 100) ∧
      (PrintLargestFiles files totalFilesSize totalFileBlobs totalFiles).totalSelectedSize
        = (files.map (fun f => f.CompressedSize)).sum ∧
      (PrintLargestFiles files totalFilesSize totalFileBlobs
          totalFiles).selectedSizePercentage.approximates
        ((((files.map (fun f => f.CompressedSize)).sum : Int) : ℚ) /
          (totalFilesSize : ℚ) * 100) := by
    obtain ⟨k1, k2, _⟩ := largestFiles_fold totalFilesSize totalFileBlobs files ⟨[], 0, 0⟩
      fitsInt_zero fitsInt_zero
    simp only [zero_add] at k1 k2
    rw [wrapInt_of_fits hfb] at k1
    rw [wrapInt_of_fits hfs] at k2
    refine ⟨rfl, k1, ?_, k2, ?_⟩
    · have := percentOf_approximates _ _ hfb hbfit hb
      rw [← k1] at this
      rw [← k1]
      exact this
    · have := percentOf_approximates _ _ hfs hsfit hs
      rw [← k2] at this
      rw [← k2]
      exact this
  refine ⟨hlargest, ?_, ?_⟩
  · obtain ⟨sorted, hsorted, hreport⟩ := hrun
    obtain ⟨f1, f2, f3⟩ := selected_exact hsorted hv
    obtain ⟨r1, r2, r3, r4⟩ := report_fields (groupByExtension blobs) sorted totalBlobs totalSize
    rw [← hreport] at r1 r2 r3 r4
    have g1 : fitsInt report.selectedFilesCount := by rw [r1]; exact fitsInt_wrapInt _
    have g2 : fitsInt report.selectedBlobsCount := by rw [r2]; exact fitsInt_wrapInt _
    have g3 : fitsInt report.selectedSize := by rw [r3]; exact fitsInt_wrapInt _
    have u1 : fitsInt report.totalExtFilesCount := by
      rw [hreport]
      simp only [reportOfSorted, totalsOfMap_eq]
      exact fitsInt_wrapInt _
    have u2 : fitsInt report.totalExtBlobsCount := by
      rw [hreport]
      simp only [reportOfSorted, totalsOfMap_eq]
      exact fitsInt_wrapInt _
    have u3 : fitsInt report.totalExtSize := by
      rw [hreport]
      simp only [reportOfSorted, totalsOfMap_eq]
      exact fitsInt_wrapInt _
    rw [wrapInt_of_fits f1] at r1
    rw [wrapInt_of_fits f2] at r2
    rw [wrapInt_of_fits f3] at r3
    have hrows : report.rows.map ExtensionRow.statistic = sorted.take 10 := by
      rw [r4, List.map_map]
      conv_rhs => rw [← List.map_id (sorted.take 10)]
      rfl
    have c1 : (report.rows.map (fun r => r.filesCount)).sum
        = ((sorted.take 10).map (fun g => g.filesCount)).sum := by
      rw [← hrows, List.map_map]
      rfl
    have c2 : (report.rows.map (fun r => r.blobsCount)).sum
        = ((sorted.take 10).map (fun g => g.blobsCount)).sum := by
      rw [← hrows, List.map_map]
      rfl
    have c3 : (report.rows.map (fun r => r.size)).sum
        = ((sorted.take 10).map (fun g => g.size)).sum := by
      rw [← hrows, List.map_map]
      rfl
    have hlenrows : report.rows.length = (sorted.take 10).length := by
      rw [← hrows, List.length_map]
    obtain ⟨_, e1, e2, e3⟩ := group_exact_valid blobs hv
    obtain ⟨t1, t2, t3⟩ := sums_of_statistics (groupByExtension blobs)
    have htot := group_totals blobs
    obtain ⟨_, v2, v3, v4⟩ := hv
    have hnb : 0 ≤ sumBlobs (groupByExtension blobs) :=
      (mapGet_bounds _ (by assumption) "").2.2.1.trans (mapGet_bounds _ (by assumption) "").2.2.2
    have hns : 0 ≤ sumSize (groupByExtension blobs) :=
      (mapGet_bounds _ (by assumption) "").1.1.trans (mapGet_bounds _ (by assumption) "").1.2
    have w1 : report.totalExtFilesCount = sumFiles (groupByExtension blobs) := by
      rw [hreport]
      simp only [reportOfSorted, htot, e2]
      exact wrapInt_of_fits (by unfold fitsInt; omega)
    have w2 : report.totalExtBlobsCount = sumBlobs (groupByExtension blobs) := by
      rw [hreport]
      simp only [reportOfSorted, htot, e3]
      rw [← e3]
      exact wrapInt_of_fits (by unfold fitsInt; omega)
    have w3 : report.totalExtSize = sumSize (groupByExtension blobs) := by
      rw [hreport]
      simp only [reportOfSorted, htot, e1]
      rw [← e1]
      exact wrapInt_of_fits (by unfold fitsInt; omega)
    have p1 : report.selectedFilesPercentage
        = percentOf report.selectedFilesCount report.totalExtFilesCount := by
      rw [hreport]
      rfl
    have p2 : report.selectedBlobsPercentage
        = percentOf report.selectedBlobsCount report.totalExtBlobsCount := by
      rw [hreport]
      rfl
    have p3 : report.selectedSizePercentage
        = percentOf report.selectedSize report.totalExtSize := by
      rw [hreport]
      rfl
    have htop : report.topCount = (report.rows.length : Int) := by
      rw [hlenrows, hreport]
      simp only [reportOfSorted, limitTop_eq_take]
    refine ⟨⟨sorted, (sorted_perm hsorted).1, hrows⟩, ?_, htop, ?_, ?_, ?_, ?_, ?_, ?_, ?_, ?_, ?_⟩
    · rw [hlenrows, List.length_take]
      omega
    · rw [r1, c1]
    · rw [r2, c2]
    · rw [r3, c3]
    · rw [w1, t1]
    · rw [w2, t2]
    · rw [w3, t3]
    · intro hne
      rw [p1, c1, ← r1]
      exact percentOf_approximates _ _ g1 u1 hne
    · intro hne
      rw [p2, c2, ← r2]
      exact percentOf_approximates _ _ g2 u2 hne
    · intro hne
      rw [p3, c3, ← r3]
      exact percentOf_approximates _ _ g3 u3 hne
  · have hblobs : (PrintLargestFiles [⟨"A", 10, 100⟩, ⟨"B", 5, 50⟩] 160 16
        3).selectedBlobsPercentage = Float64.finite (9375 / 100) := by
      show percentOf (wrapInt (wrapInt ((0 : Int) + 10) + 5)) (16 : Int) = _
      rw [wrapInt_step, wrapInt_of_fits (by unfold fitsInt; omega)]
      exact percentOf_fifteen
    have hsize : (PrintLargestFiles [⟨"A", 10, 100⟩, ⟨"B", 5, 50⟩] 160 16
        3).selectedSizePercentage = Float64.finite (9375 / 100) := by
      show percentOf (wrapInt (wrapInt ((0 : Int) + 100) + 50)) (160 : Int) = _
      rw [wrapInt_step, wrapInt_of_fits (by unfold fitsInt; omega)]
      exact percentOf_hundred_fifty
    refine ⟨rfl, by decide, hblobs, by decide, hsize⟩

/-- Witness of C3: two displayed files against totals 16 and 160, and three
files in two groups. -/
theorem top_row_sums_witness :
    (PrintLargestFiles [⟨"A", 10, 100⟩, ⟨"B", 5, 50⟩] 160 16 3).totalSelectedBlobs
      = ([⟨"A", 10, 100⟩, ⟨"B", 5, 50⟩].map (fun f : FileInformation => f.Blobs)).sum :=
  (top_row_sums [⟨"A", 10, 100⟩, ⟨"B", 5, 50⟩] 160 16 3 (by decide) (by decide) (by decide)
    (by decide) (by decide) (by decide) [⟨"a.go", 10, 100⟩, ⟨"b.go", 5, 50⟩, ⟨"Makefile", 1, 10⟩] 16 160 _
    (runTopFileExtensions_possible _ 16 160) (by simp [validFiles])).1.2.1

/-- C3 fails as stated: one displayed file of 7 blobs against a total of 100
blobs has the "Top" row percentage `7 + 2^-50`, the binary64 result of
`7 / 100 * 100`, and not the exact `7 / 100 * 100 = 7`. -/
theorem top_row_percentage_rounded :
    (PrintLargestFiles [⟨"A", 7, 7⟩] 100 100 1).totalSelectedBlobs = 7 ∧
      (PrintLargestFiles [⟨"A", 7, 7⟩] 100 100 1).selectedBlobsPercentage
        = Float64.finite (7 + 1 / 2 ^ (50 : Nat)) ∧
      (PrintLargestFiles [⟨"A", 7, 7⟩] 100 100 1).selectedBlobsPercentage
        ≠ Float64.finite (((7 : Int) : ℚ) / ((100 : Int) : ℚ) * 100) := by
  have e : (PrintLargestFiles [⟨"A", 7, 7⟩] 100 100 1).selectedBlobsPercentage
      = Float64.finite (7 + 1 / 2 ^ (50 : Nat)) := by
    show percentOf (wrapInt ((0 : Int) + 7)) (100 : Int) = _
    rw [wrapInt_of_fits (by unfold fitsInt; omega)]
    exact percentOf_seven
  refine ⟨by decide, e, ?_⟩
  rw [e]
  intro h
  injection h with h
  norm_num at h

/-! ## Zero totals -/

theorem zeroDivide_not_finite (n : Int) (q : ℚ) : zeroDivide n ≠ Float64.finite q := by
  unfold zeroDivide
  split
  · exact fun h => Float64.noConfusion h
  · split
    · exact fun h => Float64.noConfusion h
    · exact fun h => Float64.noConfusion h

/-- C5, as the code has it: when the input has at most 10 distinct extension
groups, the "Top" row of `PrintTopFileExtensions` has the same number of
groups and the same files, blobs and size counts as the "Out of" row; each of
its percentages is 100, as on the "Out of" row, when the total of that metric
is not zero, and is NaN when that total is zero (the empty input, or counts
that are all zero), the "Out of" row still showing 100. -/
theorem top_row_equals_total (blobs : List FileInformation) (totalBlobs totalSize : Int)
    (report : ExtensionReport)
    (hrun : PrintTopFileExtensions blobs totalBlobs totalSize report)
    (hgroups : ((blobs.map (fun f => extensionKey f.Path)).dedup).length ≤ 10) :
    report.topCount = report.outOf ∧
    report.selectedFilesCount = report.totalExtFilesCount ∧
    report.selectedBlobsCount = report.totalExtBlobsCount ∧
    report.selectedSize = report.totalExtSize ∧
    (report.totalExtFilesCount ≠ 0 →
      report.selectedFilesPercentage = Float64.finite 100 ∧
        report.selectedFilesPercentage = report.totalFilesPercentage) ∧
    (report.totalExtBlobsCount ≠ 0 →
      report.selectedBlobsPercentage = Float64.finite 100 ∧
        report.selectedBlobsPercentage = report.totalBlobsPercentage) ∧
    (report.totalExtSize ≠ 0 →
      report.selectedSizePercentage = Float64.finite 100 ∧
        report.selectedSizePercentage = report.totalSizePercentage) ∧
    (report.totalExtFilesCount = 0 →
      report.selectedFilesPercentage = Float64.nan ∧
        report.totalFilesPercentage = Float64.finite 100) ∧
    (report.totalExtBlobsCount = 0 →
      report.selectedBlobsPercentage = Float64.nan ∧
        report.totalBlobsPercentage = Float64.finite 100) ∧
    (report.totalExtSize = 0 →
      report.selectedSizePercentage = Float64.nan ∧
        report.totalSizePercentage = Float64.finite 100) := by
  obtain ⟨sorted, hsorted, hreport⟩ := hrun
  have hperm := (sorted_perm hsorted).1
  have hlen : sorted.length ≤ 10 := by
    rw [hperm.length_eq, List.length_map, group_length]
    exact hgroups
  have htake : sorted.take 10 = sorted := List.take_of_length_le hlen
  obtain ⟨r1, r2, r3, _⟩ := report_fields (groupByExtension blobs) sorted totalBlobs totalSize
  obtain ⟨s1, s2, s3⟩ := sums_of_sorted hsorted
  rw [htake] at r1 r2 r3
  rw [s1] at r1
  rw [s2] at r2
  rw [s3] at r3
  rw [← hreport] at r1 r2 r3
  have t1 : report.totalExtFilesCount = wrapInt (sumFiles (groupByExtension blobs)) := by
    rw [hreport]
    simp only [reportOfSorted, totalsOfMap_eq]
  have t2 : report.totalExtBlobsCount = wrapInt (sumBlobs (groupByExtension blobs)) := by
    rw [hreport]
    simp only [reportOfSorted, totalsOfMap_eq]
  have t3 : report.totalExtSize = wrapInt (sumSize (groupByExtension blobs)) := by
    rw [hreport]
    simp only [reportOfSorted, totalsOfMap_eq]
  have p1 : report.selectedFilesPercentage
      = percentOf report.totalExtFilesCount report.totalExtFilesCount := by
    have hp : report.selectedFilesPercentage = percentOf report.selectedFilesCount report.totalExtFilesCount := by
      rw [hreport]
      rfl
    rw [hp, r1, t1]
  have p2 : report.selectedBlobsPercentage
      = percentOf report.totalExtBlobsCount report.totalExtBlobsCount := by
    have hp : report.selectedBlobsPercentage = percentOf report.selectedBlobsCount report.totalExtBlobsCount := by
      rw [hreport]
      rfl
    rw [hp, r2, t2]
  have p3 : report.selectedSizePercentage
      = percentOf report.totalExtSize report.totalExtSize := by
    have hp : report.selectedSizePercentage = percentOf report.selectedSize report.totalExtSize := by
      rw [hreport]
      rfl
    rw [hp, r3, t3]
  have q1 : report.totalFilesPercentage = Float64.finite 100 := by
    rw [hreport]
    rfl
  have q2 : report.totalBlobsPercentage = Float64.finite 100 := by
    rw [hreport]
    rfl
  have q3 : report.totalSizePercentage = Float64.finite 100 := by
    rw [hreport]
    rfl
  have htop : report.topCount = report.outOf := by
    rw [hreport]
    simp only [reportOfSorted, limitTop_eq_take, htake, hperm.length_eq, List.length_map]
  refine ⟨htop, r1.trans t1.symm, r2.trans t2.symm, r3.trans t3.symm, ?_, ?_, ?_, ?_, ?_, ?_⟩
  · intro hne
    rw [p1, q1, percentOf_self hne (by rw [t1]; exact fitsInt_wrapInt _)]
    exact ⟨rfl, rfl⟩
  · intro hne
    rw [p2, q2, percentOf_self hne (by rw [t2]; exact fitsInt_wrapInt _)]
    exact ⟨rfl, rfl⟩
  · intro hne
    rw [p3, q3, percentOf_self hne (by rw [t3]; exact fitsInt_wrapInt _)]
    exact ⟨rfl, rfl⟩
  · intro h0
    rw [p1, q1, h0, percentOf_zero]
    exact ⟨rfl, rfl⟩
  · intro h0
    rw [p2, q2, h0, percentOf_zero]
    exact ⟨rfl, rfl⟩
  · intro h0
    rw [p3, q3, h0, percentOf_zero]
    exact ⟨rfl, rfl⟩

/-- Witness of C5: three files in two groups. -/
theorem top_row_equals_total_witness :
    (runTopFileExtensions [⟨"a.go", 10, 100⟩, ⟨"b.go", 5, 50⟩, ⟨"Makefile", 1, 10⟩] 16
        160).selectedBlobsCount
      = (runTopFileExtensions [⟨"a.go", 10, 100⟩, ⟨"b.go", 5, 50⟩, ⟨"Makefile", 1, 10⟩] 16
        160).totalExtBlobsCount :=
  (top_row_equals_total [⟨"a.go", 10, 100⟩, ⟨"b.go", 5, 50⟩, ⟨"Makefile", 1, 10⟩] 16 160 _
    (runTopFileExtensions_possible _ 16 160) (by decide)).2.2.1

/-- C5 fails as stated: on the empty input the "Top" row shows NaN for every
metric and the "Out of" row shows 100. -/
theorem empty_input_top_row :
    PrintTopFileExtensions [] 0 0 (runTopFileExtensions [] 0 0) ∧
      (((([] : List FileInformation).map (fun f => extensionKey f.Path)).dedup).length ≤ 10) ∧
      (runTopFileExtensions [] 0 0).selectedFilesPercentage = Float64.nan ∧
      (runTopFileExtensions [] 0 0).selectedBlobsPercentage = Float64.nan ∧
      (runTopFileExtensions [] 0 0).selectedSizePercentage = Float64.nan ∧
      (runTopFileExtensions [] 0 0).totalFilesPercentage = Float64.finite 100 ∧
      (runTopFileExtensions [] 0 0).selectedFilesPercentage
        ≠ (runTopFileExtensions [] 0 0).totalFilesPercentage := by
  have h : ∀ a : Int, a = 0 → percentOf a a = Float64.nan := by
    intro a ha
    rw [ha, percentOf_zero]
    rfl
  have h1 : (runTopFileExtensions [] 0 0).selectedFilesPercentage = Float64.nan := h _ rfl
  have h2 : (runTopFileExtensions [] 0 0).selectedBlobsPercentage = Float64.nan := h _ rfl
  have h3 : (runTopFileExtensions [] 0 0).selectedSizePercentage = Float64.nan := h _ rfl
  refine ⟨runTopFileExtensions_possible [] 0 0, by decide, h1, h2, h3, rfl, ?_⟩
  rw [h1]
  exact fun hbad => Float64.noConfusion hbad

/-- C6, as the code has it: no percentage is guarded against a zero
denominator.  With a zero total, the value is what `float64(n) / 0 * 100`
is for the numerator `n`: NaN for `n = 0`, +Inf for `n > 0`, -Inf for `n < 0`;
it is never a finite number, so never 0.  This holds of the four deltas of
`PrintGrowthTableRow`, of the file lines and the "Top" row of
`PrintLargestFiles`, and of the extension lines and the "Top" row of
`PrintTopFileExtensions`, whose "Top" row is all NaN on the empty input. -/
theorem zero_total_percentages (statistics previous : GrowthStatistics)
    (information : RepositoryInformation) (isEstimate : Bool) (currentYear : Int)
    (files : List FileInformation) (totalFilesSize totalFileBlobs totalFiles : Int)
    (blobs : List FileInformation) (totalBlobs totalSize : Int) (report : ExtensionReport)
    (hrun : PrintTopFileExtensions blobs totalBlobs totalSize report) :
    ((information.TotalCommits = 0 →
        (PrintGrowthTableRow statistics previous information isEstimate
          currentYear).commitsDifference
          = zeroDivide (wrapInt (statistics.Commits - previous.Commits))) ∧
      (information.TotalTrees = 0 →
        (PrintGrowthTableRow statistics previous information isEstimate
          currentYear).treesDifference
          = zeroDivide (wrapInt (statistics.Trees - previous.Trees))) ∧
      (information.TotalBlobs = 0 →
        (PrintGrowthTableRow statistics previous information isEstimate
          currentYear).blobsDifference
          = zeroDivide (wrapInt (statistics.Blobs - previous.Blobs))) ∧
      (information.CompressedSize = 0 →
        (PrintGrowthTableRow statistics previous information isEstimate
          currentYear).compressedDifference
          = zeroDivide (wrapInt (statistics.Compressed - previous.Compressed)))) ∧
    ((totalFileBlobs = 0 →
        (PrintLargestFiles files totalFilesSize totalFileBlobs totalFiles).selectedBlobsPercentage
          = zeroDivide
              (PrintLargestFiles files totalFilesSize totalFileBlobs totalFiles).totalSelectedBlobs ∧
        ∀ row ∈ (PrintLargestFiles files totalFilesSize totalFileBlobs totalFiles).rows,
          row.percentageBlobs = zeroDivide row.blobs) ∧
      (totalFilesSize = 0 →
        (PrintLargestFiles files totalFilesSize totalFileBlobs totalFiles).selectedSizePercentage
          = zeroDivide
              (PrintLargestFiles files totalFilesSize totalFileBlobs totalFiles).totalSelectedSize ∧
        ∀ row ∈ (PrintLargestFiles files totalFilesSize totalFileBlobs totalFiles).rows,
          row.percentageSize = zeroDivide row.compressedSize)) ∧
    ((totalBlobs = 0 → ∀ row ∈ report.rows, row.percentageBlobs = zeroDivide row.blobsCount) ∧
      (totalSize = 0 → ∀ row ∈ report.rows, row.percentageSize = zeroDivide row.size) ∧
      (report.totalExtFilesCount = 0 →
        report.selectedFilesPercentage = zeroDivide report.selectedFilesCount ∧
        ∀ row ∈ report.rows, row.percentageFiles = zeroDivide row.filesCount) ∧
      (report.totalExtBlobsCount = 0 →
        report.selectedBlobsPercentage = zeroDivide report.selectedBlobsCount) ∧
      (report.totalExtSize = 0 →
        report.selectedSizePercentage = zeroDivide report.selectedSize) ∧
      (blobs = [] →
        report.selectedFilesPercentage = Float64.nan ∧
        report.selectedBlobsPercentage = Float64.nan ∧
        report.selectedSizePercentage = Float64.nan)) ∧
    (∀ n : Int, zeroDivide n ≠ Float64.finite 0 ∧ (zeroDivide n).isFinite = false ∧
      (n = 0 → zeroDivide n = Float64.nan) ∧ (0 < n → zeroDivide n = Float64.posInf) ∧
      (n < 0 → zeroDivide n = Float64.negInf)) := by
  refine ⟨⟨?_, ?_, ?_, ?_⟩, ⟨?_, ?_⟩, ?_, ?_⟩
  · intro h0
    simp only [PrintGrowthTableRow, h0, percentOf_zero]
  · intro h0
    simp only [PrintGrowthTableRow, h0, percentOf_zero]
  · intro h0
    simp only [PrintGrowthTableRow, h0, percentOf_zero]
  · intro h0
    simp only [PrintGrowthTableRow, h0, percentOf_zero]
  · intro h0
    obtain ⟨_, _, k3⟩ := largestFiles_fold totalFilesSize totalFileBlobs files ⟨[], 0, 0⟩
      fitsInt_zero fitsInt_zero
    refine ⟨?_, ?_⟩
    · simp only [PrintLargestFiles, h0, percentOf_zero]
    · intro row hrow
      simp only [PrintLargestFiles, k3, List.nil_append, List.mem_map] at hrow
      obtain ⟨f, _, rfl⟩ := hrow
      simp only [h0, percentOf_zero]
  · intro h0
    obtain ⟨_, _, k3⟩ := largestFiles_fold totalFilesSize totalFileBlobs files ⟨[], 0, 0⟩
      fitsInt_zero fitsInt_zero
    refine ⟨?_, ?_⟩
    · simp only [PrintLargestFiles, h0, percentOf_zero]
    · intro row hrow
      simp only [PrintLargestFiles, k3, List.nil_append, List.mem_map] at hrow
      obtain ⟨f, _, rfl⟩ := hrow
      simp only [h0, percentOf_zero]
  · obtain ⟨sorted, hsorted, hreport⟩ := hrun
    obtain ⟨r1, r2, r3, r4⟩ := report_fields (groupByExtension blobs) sorted totalBlobs totalSize
    rw [← hreport] at r1 r2 r3 r4
    have t1 : report.totalExtFilesCount = (totalsOfMap (groupByExtension blobs)).filesCount := by
      rw [hreport]
      rfl
    have p1 : report.selectedFilesPercentage
        = percentOf report.selectedFilesCount report.totalExtFilesCount := by
      rw [hreport]
      rfl
    have p2 : report.selectedBlobsPercentage
        = percentOf report.selectedBlobsCount report.totalExtBlobsCount := by
      rw [hreport]
      rfl
    have p3 : report.selectedSizePercentage
        = percentOf report.selectedSize report.totalExtSize := by
      rw [hreport]
      rfl
    refine ⟨?_, ?_, ?_, ?_, ?_, ?_⟩
    · intro h0 row hrow
      rw [r4, List.mem_map] at hrow
      obtain ⟨g, _, rfl⟩ := hrow
      simp only [h0, percentOf_zero]
    · intro h0 row hrow
      rw [r4, List.mem_map] at hrow
      obtain ⟨g, _, rfl⟩ := hrow
      simp only [h0, percentOf_zero]
    · intro h0
      refine ⟨by rw [p1, h0, percentOf_zero], ?_⟩
      intro row hrow
      rw [r4, List.mem_map] at hrow
      obtain ⟨g, _, rfl⟩ := hrow
      simp only [← t1, h0, percentOf_zero]
    · intro h0
      rw [p2, h0, percentOf_zero]
    · intro h0
      rw [p3, h0, percentOf_zero]
    · intro hnil
      have hs : sorted = [] := by
        have hp := (sorted_perm hsorted).1
        rw [hnil] at hp
        exact List.Perm.eq_nil (by simpa [groupByExtension] using hp)
      rw [hreport, hnil, hs]
      have e : ∀ a : Int, a = 0 → percentOf a a = Float64.nan := by
        intro a ha
        rw [ha, percentOf_zero]
        rfl
      exact ⟨e _ rfl, e _ rfl, e _ rfl⟩
  · intro n
    refine ⟨zeroDivide_not_finite n 0, ?_, ?_, ?_, ?_⟩
    · unfold zeroDivide
      split
      · rfl
      · split <;> rfl
    · intro h
      simp [zeroDivide, h]
    · intro h
      have : n ≠ 0 := by omega
      simp [zeroDivide, h, this]
    · intro h
      have h1 : n ≠ 0 := by omega
      have h2 : ¬ 0 < n := by omega
      simp [zeroDivide, h1, h2]

/-- Witness of C6: a repository whose totals are all zero, and no files. -/
theorem zero_total_percentages_witness :
    (PrintGrowthTableRow ⟨2024, 1, 0, 0, 0⟩ GrowthStatistics.zero ⟨0, 0, 0, 0⟩ false
        2025).commitsDifference
      = zeroDivide (wrapInt ((1 : Int) - 0)) :=
  (zero_total_percentages ⟨2024, 1, 0, 0, 0⟩ GrowthStatistics.zero ⟨0, 0, 0, 0⟩ false 2025
    [] 0 0 0 [] 0 0 _ (runTopFileExtensions_possible [] 0 0)).1.1 rfl

/-- C6 fails as stated: against totals that are zero, the first commit of a
repository has the delta +Inf and the metrics without change the delta NaN,
and the files of a "largest files" table of zero totals are at +Inf. -/
theorem zero_total_not_zero_percent :
    (PrintGrowthTableRow ⟨2024, 1, 0, 0, 0⟩ GrowthStatistics.zero ⟨0, 0, 0, 0⟩ false
        2025).commitsDifference = Float64.posInf ∧
      (PrintGrowthTableRow ⟨2024, 1, 0, 0, 0⟩ GrowthStatistics.zero ⟨0, 0, 0, 0⟩ false
        2025).treesDifference = Float64.nan ∧
      (PrintGrowthTableRow ⟨2024, 1, 0, 0, 0⟩ GrowthStatistics.zero ⟨0, 0, 0, 0⟩ false
        2025).commitsDifference ≠ Float64.finite 0 ∧
      (PrintGrowthTableRow ⟨2024, 1, 0, 0, 0⟩ GrowthStatistics.zero ⟨0, 0, 0, 0⟩ false
        2025).treesDifference ≠ Float64.finite 0 ∧
      (PrintLargestFiles [⟨"A", 10, 100⟩] 0 0 1).selectedBlobsPercentage = Float64.posInf := by
  have h1 : (PrintGrowthTableRow ⟨2024, 1, 0, 0, 0⟩ GrowthStatistics.zero ⟨0, 0, 0, 0⟩ false
      2025).commitsDifference = Float64.posInf := by
    show percentOf (wrapInt ((1 : Int) - 0)) 0 = Float64.posInf
    rw [percentOf_zero]
    decide
  have h2 : (PrintGrowthTableRow ⟨2024, 1, 0, 0, 0⟩ GrowthStatistics.zero ⟨0, 0, 0, 0⟩ false
      2025).treesDifference = Float64.nan := by
    show percentOf (wrapInt ((0 : Int) - 0)) 0 = Float64.nan
    rw [percentOf_zero]
    decide
  have h3 : (PrintLargestFiles [⟨"A", 10, 100⟩] 0 0 1).selectedBlobsPercentage
      = Float64.posInf := by
    show percentOf (wrapInt ((0 : Int) + 10)) 0 = Float64.posInf
    rw [percentOf_zero]
    decide
  refine ⟨h1, h2, ?_, ?_, h3⟩
  · rw [h1]
    exact fun h => Float64.noConfusion h
  · rw [h2]
    exact fun h => Float64.noConfusion h

/-! ## Order independence of the grouping -/

theorem mapGet_congr {m₁ m₂ : ExtensionMap} (h : ∀ k, mapFind m₁ k = mapFind m₂ k)
    (key : String) : mapGet m₁ key = mapGet m₂ key := by
  unfold mapGet
  rw [h key]

theorem mapFind_groupStep (m : ExtensionMap) (f : FileInformation) (k : String) :
    mapFind (groupStep m f) k =
      if extensionKey f.Path = k then
        some
          { size := wrapInt ((mapGet m (extensionKey f.Path)).size + f.CompressedSize)
            filesCount := wrapInt ((mapGet m (extensionKey f.Path)).filesCount + 1)
            blobsCount := wrapInt ((mapGet m (extensionKey f.Path)).blobsCount + f.Blobs) }
      else mapFind m k := by
  simp only [groupStep, mapFind_mapSet]

theorem groupStep_congr {m₁ m₂ : ExtensionMap} (h : ∀ k, mapFind m₁ k = mapFind m₂ k)
    (f : FileInformation) : ∀ k, mapFind (groupStep m₁ f) k = mapFind (groupStep m₂ f) k := by
  intro k
  rw [mapFind_groupStep, mapFind_groupStep, mapGet_congr h, h k]

theorem wrapInt_swap (g a b : Int) :
    wrapInt (wrapInt (g + a) + b) = wrapInt (wrapInt (g + b) + a) := by
  unfold wrapInt
  omega

theorem mapGet_groupStep (m : ExtensionMap) (f : FileInformation) (key : String) :
    mapGet (groupStep m f) key =
      if extensionKey f.Path = key then
        { size := wrapInt ((mapGet m (extensionKey f.Path)).size + f.CompressedSize)
          filesCount := wrapInt ((mapGet m (extensionKey f.Path)).filesCount + 1)
          blobsCount := wrapInt ((mapGet m (extensionKey f.Path)).blobsCount + f.Blobs) }
      else mapGet m key := by
  have h := mapFind_groupStep m f key
  unfold mapGet at h ⊢
  rw [h]
  split <;> rfl

theorem groupStep_comm (m : ExtensionMap) (a b : FileInformation) :
    ∀ k, mapFind (groupStep (groupStep m a) b) k = mapFind (groupStep (groupStep m b) a) k := by
  intro k
  simp only [mapFind_groupStep, mapGet_groupStep]
  by_cases hab : extensionKey a.Path = extensionKey b.Path
  · have hba : extensionKey b.Path = extensionKey a.Path := hab.symm
    simp only [hab, if_true]
    by_cases hk : extensionKey b.Path = k
    · simp only [if_pos hk, wrapInt_swap _ a.CompressedSize, wrapInt_swap _ a.Blobs]
    · simp only [if_neg hk]
  · have hba : ¬ extensionKey b.Path = extensionKey a.Path := fun h => hab h.symm
    simp only [if_neg hab, if_neg hba]
    by_cases hk1 : extensionKey b.Path = k
    · have hk2 : ¬ extensionKey a.Path = k := fun h => hab (h.trans hk1.symm)
      simp only [if_pos hk1, if_neg hk2]
    · simp only [if_neg hk1]

theorem foldl_groupStep_congr (blobs : List FileInformation) :
    ∀ {m₁ m₂ : ExtensionMap}, (∀ k, mapFind m₁ k = mapFind m₂ k) →
      ∀ k, mapFind (blobs.foldl groupStep m₁) k = mapFind (blobs.foldl groupStep m₂) k := by
  induction blobs with
  | nil =>
    intro m₁ m₂ h
    exact h
  | cons f blobs ih =>
    intro m₁ m₂ h
    exact ih (groupStep_congr h f)

theorem foldl_groupStep_perm {l₁ l₂ : List FileInformation} (hperm : l₁.Perm l₂) :
    ∀ {m₁ m₂ : ExtensionMap}, (∀ k, mapFind m₁ k = mapFind m₂ k) →
      ∀ k, mapFind (l₁.foldl groupStep m₁) k = mapFind (l₂.foldl groupStep m₂) k := by
  induction hperm with
  | nil =>
    intro m₁ m₂ h
    exact h
  | cons f _ ih =>
    intro m₁ m₂ h
    exact ih (groupStep_congr h f)
  | swap a b l =>
    intro m₁ m₂ h
    simp only [List.foldl_cons]
    apply foldl_groupStep_congr l
    intro k
    rw [groupStep_comm m₁ b a k]
    exact groupStep_congr (groupStep_congr h a) b k
  | trans _ _ ih₁ ih₂ =>
    intro m₁ m₂ h k
    exact (ih₁ h k).trans (ih₂ (fun _ => rfl) k)

theorem mem_iff_mapFind (m : ExtensionMap) (hm : (m.map Prod.fst).Nodup) (k : String)
    (v : ExtensionTotals) : (k, v) ∈ m ↔ mapFind m k = some v := by
  induction m with
  | nil => simp [mapFind]
  | cons e m ih =>
    obtain ⟨k', v'⟩ := e
    rw [List.map_cons, List.nodup_cons] at hm
    obtain ⟨hnot, hnd⟩ := hm
    by_cases h1 : k' = k
    · subst h1
      have hno : (k', v) ∉ m := fun h => hnot (List.mem_map.2 ⟨(k', v), h, rfl⟩)
      simp only [mapFind, if_true, List.mem_cons, Prod.mk.injEq, true_and, Option.some.injEq]
      constructor
      · rintro (h | h)
        · exact h.symm
        · exact absurd h hno
      · intro h
        exact Or.inl h.symm
    · have h1' : ¬ k = k' := fun h => h1 h.symm
      simp only [mapFind, if_neg h1, List.mem_cons, Prod.mk.injEq, h1', false_and, false_or]
      exact ih hnd

/-- C7: the grouping loop does not depend on the order of the input.  For a
rearrangement of the list of files, the map built has for every extension
label the same entry (size, files count, blobs count), or none in both cases;
so the two maps have the same entries, each label once, and the same totals. -/
theorem grouping_order_independent (blobs permuted : List FileInformation)
    (hperm : permuted.Perm blobs) :
    (∀ extension, mapFind (groupByExtension permuted) extension
        = mapFind (groupByExtension blobs) extension) ∧
    ((groupByExtension blobs).map Prod.fst).Nodup ∧
    (groupByExtension permuted).Perm (groupByExtension blobs) ∧
    totalsOfMap (groupByExtension permuted) = totalsOfMap (groupByExtension blobs) := by
  have hfind : ∀ k, mapFind (groupByExtension permuted) k = mapFind (groupByExtension blobs) k :=
    foldl_groupStep_perm hperm (fun _ => rfl)
  have hnd₁ := (group_keys permuted [] List.nodup_nil).1
  have hnd₂ := (group_keys blobs [] List.nodup_nil).1
  refine ⟨hfind, hnd₂, ?_, ?_⟩
  · refine (List.perm_ext_iff_of_nodup (List.Nodup.of_map _ hnd₁) (List.Nodup.of_map _ hnd₂)).2 ?_
    rintro ⟨k, v⟩
    have e₁ := mem_iff_mapFind (groupByExtension permuted) hnd₁ k v
    have e₂ := mem_iff_mapFind (groupByExtension blobs) hnd₂ k v
    have e₃ : mapFind (groupByExtension permuted) k = some v ↔
        mapFind (groupByExtension blobs) k = some v := by
      rw [hfind k]
    exact e₁.trans (e₃.trans e₂.symm)
  · rw [group_totals, group_totals, hperm.length_eq, (hperm.map _).sum_eq, (hperm.map _).sum_eq]

/-- Witness of C7: three files, two of them of one extension, in two orders. -/
theorem grouping_order_independent_witness :
    totalsOfMap (groupByExtension [⟨"b.go", 5, 50⟩, ⟨"a.go", 10, 100⟩, ⟨"Makefile", 1, 10⟩])
      = totalsOfMap (groupByExtension [⟨"a.go", 10, 100⟩, ⟨"b.go", 5, 50⟩, ⟨"Makefile", 1, 10⟩]) :=
  (grouping_order_independent [⟨"a.go", 10, 100⟩, ⟨"b.go", 5, 50⟩, ⟨"Makefile", 1, 10⟩]
    [⟨"b.go", 5, 50⟩, ⟨"a.go", 10, 100⟩, ⟨"Makefile", 1, 10⟩] (List.Perm.swap _ _ _)).2.2.2

/-! ## The displayed lines -/

theorem pairwise_take_drop {α : Type} {R : α → α → Prop} (l : List α) (h : l.Pairwise R)
    (n : Nat) : ∀ a ∈ l.take n, ∀ b ∈ l.drop n, R a b := by
  have h' : (l.take n ++ l.drop n).Pairwise R := by
    rw [List.take_append_drop]
    exact h
  exact (List.pairwise_append.1 h').2.2

/-- C8, as the code has it: the lines `PrintTopFileExtensions` displays are
the first min(10, number of groups) elements of some rearrangement of the
groups in which sizes never increase; so the displayed sizes are
non-increasing and no group left out is larger than a displayed one.  The
order among groups of equal size is whatever the map range and `sort.Slice`
leave: it is not fixed by the input list.  Every input has such a report. -/
theorem displayed_rows_sorted (blobs : List FileInformation) (totalBlobs totalSize : Int)
    (report : ExtensionReport)
    (hrun : PrintTopFileExtensions blobs totalBlobs totalSize report) :
    (∃ sorted : List extensionStatistic,
      sorted.Perm ((groupByExtension blobs).map toStatistic) ∧
      sorted.Pairwise (fun earlier later => later.size ≤ earlier.size) ∧
      report.rows.map ExtensionRow.statistic = sorted.take 10 ∧
      (∀ shown ∈ sorted.take 10, ∀ hidden ∈ sorted.drop 10, hidden.size ≤ shown.size)) ∧
    report.rows.length = min 10 (((blobs.map (fun f => extensionKey f.Path)).dedup).length) ∧
    (report.rows.map (fun r => r.size)).Pairwise (fun earlier later => later ≤ earlier) ∧
    (∃ r, PrintTopFileExtensions blobs totalBlobs totalSize r) := by
  obtain ⟨sorted, hsorted, hreport⟩ := hrun
  obtain ⟨hperm, hpair⟩ := sorted_perm hsorted
  obtain ⟨_, _, _, r4⟩ := report_fields (groupByExtension blobs) sorted totalBlobs totalSize
  rw [← hreport] at r4
  have hrows : report.rows.map ExtensionRow.statistic = sorted.take 10 := by
    rw [r4, List.map_map]
    conv_rhs => rw [← List.map_id (sorted.take 10)]
    rfl
  have hsizes : report.rows.map (fun r => r.size) = (sorted.take 10).map (fun g => g.size) := by
    rw [← hrows, List.map_map]
    rfl
  refine ⟨⟨sorted, hperm, hpair, hrows, pairwise_take_drop sorted hpair 10⟩, ?_, ?_,
    ⟨_, runTopFileExtensions_possible blobs totalBlobs totalSize⟩⟩
  · have hlen : report.rows.length = (sorted.take 10).length := by
      rw [← hrows, List.length_map]
    rw [hlen, List.length_take, hperm.length_eq, List.length_map, group_length]
  · rw [hsizes, List.pairwise_map]
    exact hpair.sublist (List.take_sublist 10 sorted)

/-- Witness of C8: three files in two groups. -/
theorem displayed_rows_sorted_witness :
    ((runTopFileExtensions [⟨"a.go", 10, 100⟩, ⟨"b.go", 5, 50⟩, ⟨"Makefile", 1, 10⟩] 16
        160).rows.map (fun r => r.size)).Pairwise (fun earlier later => later ≤ earlier) :=
  (displayed_rows_sorted [⟨"a.go", 10, 100⟩, ⟨"b.go", 5, 50⟩, ⟨"Makefile", 1, 10⟩] 16 160 _
    (runTopFileExtensions_possible _ 16 160)).2.2.1

/-- C8 fails as stated: for two groups of equal size, `.x` first in the
input and `.y` second, the report that lists `.y` before `.x` is a possible
one, as is the report that lists `.x` before `.y`. -/
theorem equal_sizes_either_order :
    PrintTopFileExtensions [⟨"a.x", 1, 5⟩, ⟨"b.y", 1, 5⟩] 2 10
        (reportOfSorted (groupByExtension [⟨"a.x", 1, 5⟩, ⟨"b.y", 1, 5⟩])
          [⟨".y", 5, 1, 1⟩, ⟨".x", 5, 1, 1⟩] 2 10) ∧
      (reportOfSorted (groupByExtension [⟨"a.x", 1, 5⟩, ⟨"b.y", 1, 5⟩])
          [⟨".y", 5, 1, 1⟩, ⟨".x", 5, 1, 1⟩] 2 10).rows.map (fun r => r.extension)
        = [".y", ".x"] ∧
      PrintTopFileExtensions [⟨"a.x", 1, 5⟩, ⟨"b.y", 1, 5⟩] 2 10
        (runTopFileExtensions [⟨"a.x", 1, 5⟩, ⟨"b.y", 1, 5⟩] 2 10) ∧
      (runTopFileExtensions [⟨"a.x", 1, 5⟩, ⟨"b.y", 1, 5⟩] 2 10).rows.map (fun r => r.extension)
        = [".x", ".y"] := by
  have hgroups : (groupByExtension [⟨"a.x", 1, 5⟩, ⟨"b.y", 1, 5⟩]).map toStatistic
      = [⟨".x", 5, 1, 1⟩, ⟨".y", 5, 1, 1⟩] := by
    decide
  refine ⟨⟨_, ⟨[⟨".y", 5, 1, 1⟩, ⟨".x", 5, 1, 1⟩], ?_, List.Perm.refl _, ?_⟩, rfl⟩, ?_,
    runTopFileExtensions_possible _ 2 10, ?_⟩
  · unfold IsRangeOrder
    rw [hgroups]
    exact List.Perm.swap _ _ _
  · decide
  · decide
  · decide

end Display
